import Mathlib

/-!
Shallow embedding of the simulation/update loop, connection routing and
discovery cache of the AI Factory Sandbox repository.

Sources embedded:
* `src/ai-factory-sandbox/src/hooks/useGameEngine.ts` (the game engine:
  `gameLoop`, `processCombination`, `updateCashPerMinute`,
  `calculateConnectionPoints`);
* `src/ai-factory-sandbox/src/types/game.ts` (data model and catalogs);
* `src/unnamed/part_000` (the `gpt.ts` service: `combineItems`,
  `generateFallbackResponse`, `getCachedCombo`);
* `src/unnamed/part_001` (the `AIService` class: `combineItems`,
  `createCacheKey`).

Modelling conventions:
* JavaScript numbers are embedded as `ℚ` (exact rational arithmetic).
* `Math.sqrt` has no exact rational counterpart, so every engine function
  that needs it is parametrised by a square-root function
  `sqrtFn : ℚ → ℚ`; theorems assume only properties true of the real
  square root (non-negativity, `sqrtFn 0 = 0`), and concrete evaluations
  instantiate `sqrtFn` with Mathlib's `Rat.sqrt`.
* `uuidv4()` is embedded as an oracle `uuid : ℕ → String` threaded through
  each tick with a counter.
* The external generator (`await combineItems(...)` inside
  `processCombination`, `generateNewCombination` inside `AIService`) is an
  oracle function parameter; invoking it is observable as dependence of
  the output on that parameter, and the `AIService` model additionally
  returns an explicit "generator invoked" flag.
* In `gameLoop`, `const progressIncrement = (CONNECTION_SPEED * deltaTime)
  / 1000 / distance` divides by `distance`.  When `distance` is `0` and
  `deltaTime > 0` (guaranteed by the 60 fps guard), IEEE semantics give
  `+Infinity`, and `Math.min(progress + Infinity, 1) = 1`.  The embedding
  renders this case explicitly as `if distance = 0 then 1 else
  min (progress + 80 * dt / 1000 / distance) 1`.
* `localStorage` persistence (`saveDiscoveredCombos`,
  `loadDiscoveredCombos`) is I/O outside the state transition and is not
  modelled; the in-memory cache is authoritative, as the code treats it.
-/

namespace Factory

/-- 2-D point, the `{ x: number; y: number }` shape used throughout. -/
structure Point where
  x : ℚ
  y : ℚ
  deriving DecidableEq, Repr

instance : Inhabited Point := ⟨⟨0, 0⟩⟩

/-- `type: 'Ingredient' | 'Modifier'` from `types/game.ts`. -/
inductive ItemType where
  | Ingredient
  | Modifier
  deriving DecidableEq, Repr

/-- `GPTResponse` from `types/game.ts` (without the `isNewDiscovery`
flag, which only the `AIService` result carries). -/
structure GPTResponse where
  name : String
  emoji : String
  cashPerItem : ℚ
  type : ItemType
  rarity : Option String := none
  category : Option String := none
  complexity : Option ℚ := none
  description : Option String := none
  deriving DecidableEq, Repr

instance : Inhabited GPTResponse :=
  ⟨{ name := "", emoji := "", cashPerItem := 0, type := .Ingredient }⟩

/-- `GameItem` from `types/game.ts` (the fields the engine touches). -/
structure GameItem where
  id : String
  name : String
  emoji : String
  cashPerItem : ℚ
  type : ItemType
  x : ℚ
  y : ℚ
  vx : ℚ
  vy : ℚ
  progress : ℚ
  connectionId : Option String
  deriving DecidableEq, Repr

/-- `Spawner` from `types/game.ts`. -/
structure Spawner where
  id : String
  x : ℚ
  y : ℚ
  width : ℚ
  height : ℚ
  itemType : String
  lastSpawn : ℚ
  spawnInterval : ℚ
  deriving DecidableEq, Repr

/-- `fromType: 'spawner' | 'modifier'` of a connection. -/
inductive FromType where
  | spawner
  | modifier
  deriving DecidableEq, Repr

/-- `toType: 'modifier' | 'sell'` of a connection. -/
inductive ToType where
  | modifier
  | sell
  deriving DecidableEq, Repr

/-- `Connection` from `types/game.ts` (the `fromPort`/`toPort` fields are
the constants `'output'`/`'input'` and are omitted). -/
structure Connection where
  id : String
  fromId : String
  toId : String
  fromType : FromType
  toType : ToType
  points : List Point
  speed : ℚ
  deriving DecidableEq, Repr

/-- `Modifier` from `types/game.ts` (engine-relevant fields). -/
structure GameModifier where
  id : String
  x : ℚ
  y : ℚ
  width : ℚ
  height : ℚ
  name : String
  emoji : String
  inputs : List String
  lastProcess : ℚ
  processInterval : ℚ
  deriving DecidableEq, Repr

instance : Inhabited GameModifier :=
  ⟨{ id := "", x := 0, y := 0, width := 0, height := 0, name := "",
     emoji := "", inputs := [], lastProcess := 0, processInterval := 0 }⟩

/-- One `{ timestamp, cash }` sample of `cashHistory`. -/
structure CashEntry where
  timestamp : ℚ
  cash : ℚ
  deriving DecidableEq, Repr

instance : Inhabited CashEntry := ⟨⟨0, 0⟩⟩

/-- `GameState` from `types/game.ts`; `discoveredCombos` is the
`Record<string, GPTResponse>` embedded as an association list looked up
by first occurrence (matching JavaScript object-key lookup). -/
structure GameState where
  items : List GameItem
  spawners : List Spawner
  connections : List Connection
  modifiers : List GameModifier
  totalCash : ℚ
  cashPerMinute : ℚ
  discoveredCombos : List (String × GPTResponse)
  lastCashUpdate : ℚ
  cashHistory : List CashEntry
  deriving DecidableEq, Repr

/-- The engine's two timer refs alongside the game state:
`lastFrameTime` (a `useRef`) and `lastUpdateTime` (a closure variable of
the game-loop effect). -/
structure EngineState where
  game : GameState
  lastFrameTime : ℚ
  lastUpdateTime : ℚ
  deriving DecidableEq, Repr

/-- `ELEMENTAL_INGREDIENTS` from `types/game.ts`. -/
def ELEMENTAL_INGREDIENTS : List (String × String) :=
  [("Water", "💧"), ("Fire", "🔥"), ("Earth", "🌍"), ("Air", "💨")]

/-- `CONNECTION_SPEED = 80` (pixels per second) from `useGameEngine.ts`. -/
def CONNECTION_SPEED : ℚ := 80

/-- `SELL_ZONE` from `useGameEngine.ts`. -/
def SELL_ZONE_x : ℚ := 800
def SELL_ZONE_y : ℚ := 300
def SELL_ZONE_width : ℚ := 120
def SELL_ZONE_height : ℚ := 200

/-- `FRAME_TIME = 1000 / TARGET_FPS` with `TARGET_FPS = 60`. -/
def FRAME_TIME : ℚ := 1000 / 60

/-! ### Discovery-cache key derivation (`gpt.ts` / `AIService`) -/

/-- The lexicographic string order used by `[...ingredients].sort()`,
stated on the underlying character lists (the same relation as `≤` on
`String`, in a form the kernel can evaluate). -/
def jsStringLe (a b : String) : Prop := a.data ≤ b.data

instance : DecidableRel jsStringLe := fun a b =>
  inferInstanceAs (Decidable (a.data ≤ b.data))

/-- `getCachedCombo` from `src/unnamed/part_000`:
sorted ingredient names joined with `+`, then `+` and the modifier name.
`[...ingredients].sort()` sorts strings lexicographically; it is embedded
as an insertion sort under `jsStringLe` (every comparison sort of strings
produces the same list, since equal strings are indistinguishable). -/
def getCachedCombo (ingredients : List String) (modifier : String) : String :=
  let sortedIngredients := ingredients.insertionSort jsStringLe
  String.intercalate "+" sortedIngredients ++ "+" ++ modifier

/-- `AIService.createCacheKey` from `src/unnamed/part_001`
(textually identical to `getCachedCombo`). -/
def createCacheKey (ingredients : List String) (modifier : String) : String :=
  let sortedIngredients := ingredients.insertionSort jsStringLe
  String.intercalate "+" sortedIngredients ++ "+" ++ modifier

/-! ### `gpt.ts` service (`src/unnamed/part_000`) -/

/-- The falsiness test `!OPENAI_API_KEY || OPENAI_API_KEY ===
'your_openai_api_key_here'` guarding both `combineItems` in `gpt.ts` and
`AIService.generateNewCombination`: the key is absent (`undefined`), the
empty string (falsy), or the placeholder value. -/
def apiKeyMissing : Option String → Bool
  | none => true
  | some s => s = "" || s = "your_openai_api_key_here"

/-- `generateFallbackResponse` from `src/unnamed/part_000`.
Each entry's `cashPerItem` is `Math.floor(Math.random() * scale) + base`;
the five `Math.random()` draws used in the array literal are the oracle
`rands : Fin 5 → ℚ`, and the selecting draw in
`fallbacks[Math.floor(Math.random() * fallbacks.length)]` is `pick`.
The `ingredients` and `modifier` arguments are unused by the source
function and are kept for signature fidelity. -/
def generateFallbackResponse (rands : Fin 5 → ℚ) (pick : ℚ)
    (_ingredients : List String) (_modifier : String) : GPTResponse :=
  let fallbacks : List GPTResponse :=
    [ { name := "Mysterious Goo", emoji := "🧪",
        cashPerItem := (⌊rands 0 * 1000⌋ : ℤ) + 100, type := .Ingredient },
      { name := "Chaos Crystal", emoji := "💎",
        cashPerItem := (⌊rands 1 * 10000⌋ : ℤ) + 1000, type := .Ingredient },
      { name := "Quantum Soup", emoji := "🍲",
        cashPerItem := (⌊rands 2 * 100000⌋ : ℤ) + 10000, type := .Ingredient },
      { name := "Hyperdimensional Widget", emoji := "🔧",
        cashPerItem := (⌊rands 3 * 1000000⌋ : ℤ) + 100000, type := .Modifier },
      { name := "Cosmic Blender", emoji := "🌌",
        cashPerItem := (⌊rands 4 * 10000000⌋ : ℤ) + 1000000, type := .Modifier } ]
  fallbacks.getD (⌊pick * 5⌋).toNat default

/-- The raw structured response the external generator may return,
before the validation in `combineItems`; a `none` models a network error
or unparseable content (the `catch` path). -/
structure RawResponse where
  name : String
  emoji : String
  cashPerItem : ℚ
  type : Option ItemType
  deriving DecidableEq, Repr

/-- The truthiness validation in `combineItems`
(`!result.name || !result.emoji || !result.cashPerItem || !result.type`):
empty strings, a zero cash value, and a missing type are all falsy and
invalidate the response. -/
def rawResponseValid (r : RawResponse) : Bool :=
  r.name ≠ "" && r.emoji ≠ "" && r.cashPerItem ≠ 0 && r.type.isSome

/-- `combineItems` from `src/unnamed/part_000`.  `net` is the external
generator oracle (`none` = request or parse failure).  Returns the
response together with a flag recording whether the network request was
issued (it is issued exactly when the API key is present, whether or not
it then succeeds). -/
def combineItems (apiKey : Option String) (net : Option RawResponse)
    (rands : Fin 5 → ℚ) (pick : ℚ)
    (ingredients : List String) (modifier : String) : GPTResponse × Bool :=
  if apiKeyMissing apiKey then
    (generateFallbackResponse rands pick ingredients modifier, false)
  else
    match net with
    | some r =>
      if rawResponseValid r then
        ({ name := r.name, emoji := r.emoji, cashPerItem := r.cashPerItem,
           type := r.type.getD .Ingredient }, true)
      else
        (generateFallbackResponse rands pick ingredients modifier, true)
    | none => (generateFallbackResponse rands pick ingredients modifier, true)

/-! ### `AIService` (`src/unnamed/part_001`) -/

/-- `ItemData` from `src/unnamed/part_001` (all fields beyond name and
emoji are optional in the source interface). -/
structure ItemData where
  name : String
  emoji : String
  description : Option String := none
  category : Option String := none
  rarity : Option String := none
  complexity : Option ℚ := none
  cashPerItem : Option ℚ := none
  deriving DecidableEq, Repr

/-- The `GPTResponse & { isNewDiscovery: boolean }` value returned by
`AIService.combineItems`. -/
structure AIServiceResult where
  name : String
  emoji : String
  cashPerItem : ℚ
  type : ItemType
  rarity : Option String
  category : Option String
  complexity : Option ℚ
  description : Option String
  isNewDiscovery : Bool
  deriving DecidableEq, Repr

/-- The `Map<string, ItemData>` field `discoveredCombos`, embedded as an
association list looked up by first occurrence. -/
def ComboCache := List (String × ItemData)

/-- `Map.get` on the discovery cache. -/
def cacheLookup (c : ComboCache) (k : String) : Option ItemData :=
  List.lookup k c

/-- `Map.set` on the discovery cache (newest binding shadows older
ones, matching map-overwrite semantics). -/
def cacheSet (c : ComboCache) (k : String) (v : ItemData) : ComboCache :=
  (k, v) :: c

/-- `AIService.combineItems` from `src/unnamed/part_001`.
`genNew` is the `generateNewCombination` oracle (covering both the
external call and the local fallback).  Returns the result, the updated
cache, and a flag recording whether `generateNewCombination` was
invoked. -/
def AIService.combineItems (genNew : List String → String → ItemData)
    (combos : ComboCache) (ingredients : List String) (modifier : String) :
    AIServiceResult × ComboCache × Bool :=
  let cacheKey := createCacheKey ingredients modifier
  match cacheLookup combos cacheKey with
  | some cached =>
    ({ name := cached.name, emoji := cached.emoji,
       cashPerItem := cached.cashPerItem.getD 0, type := .Ingredient,
       rarity := cached.rarity, category := cached.category,
       complexity := cached.complexity, description := cached.description,
       isNewDiscovery := false }, combos, false)
  | none =>
    let newItem := genNew ingredients modifier
    let combos' := cacheSet combos cacheKey newItem
    ({ name := newItem.name, emoji := newItem.emoji,
       cashPerItem := newItem.cashPerItem.getD 0, type := .Ingredient,
       rarity := newItem.rarity, category := newItem.category,
       complexity := newItem.complexity, description := newItem.description,
       isNewDiscovery := true }, combos', true)

/-- Run a sequence of `AIService.combineItems` requests, keeping only the
evolving cache. -/
def AIService.runRequests (genNew : List String → String → ItemData) :
    ComboCache → List (List String × String) → ComboCache
  | combos, [] => combos
  | combos, (ing, m) :: rest =>
    AIService.runRequests genNew
      (AIService.combineItems genNew combos ing m).2.1 rest

/-! ### Connection routing (`calculateConnectionPoints`) -/

/-- `calculateConnectionPoints` from `useGameEngine.ts`: start point at
the source block's right-centre edge (degenerate origin if the entity is
missing), end point at the sell-zone centre or the destination modifier's
left-centre edge (degenerate origin if missing); a straight two-point
segment. -/
def calculateConnectionPoints (c : Connection) (spawners : List Spawner)
    (modifiers : List GameModifier) : List Point :=
  let startPoint : Point :=
    match c.fromType with
    | .spawner =>
      match spawners.find? (fun s => s.id == c.fromId) with
      | some s => ⟨s.x + s.width, s.y + s.height / 2⟩
      | none => ⟨0, 0⟩
    | .modifier =>
      match modifiers.find? (fun m => m.id == c.fromId) with
      | some m => ⟨m.x + m.width, m.y + m.height / 2⟩
      | none => ⟨0, 0⟩
  let endPoint : Point :=
    match c.toType with
    | .sell =>
      ⟨SELL_ZONE_x + SELL_ZONE_width / 2, SELL_ZONE_y + SELL_ZONE_height / 2⟩
    | .modifier =>
      match modifiers.find? (fun m => m.id == c.toId) with
      | some m => ⟨m.x, m.y + m.height / 2⟩
      | none => ⟨0, 0⟩
  [startPoint, endPoint]

/-! ### Spawner emission (`gameLoop`, spawn section) -/

/-- The item literal pushed when a spawner fires: fresh id, the catalog
ingredient's name/emoji, `cashPerItem: 15`, type `Ingredient`, positioned
at the outbound connection's start point, `progress: 0`, attached to that
connection. -/
def mkSpawnedItem (freshId : String) (ing : String × String)
    (oc : Connection) : GameItem :=
  { id := freshId, name := ing.1, emoji := ing.2, cashPerItem := 15,
    type := .Ingredient, x := oc.points.headI.x, y := oc.points.headI.y,
    vx := 0, vy := 0, progress := 0, connectionId := some oc.id }

/-- The firing condition of the spawn section of `gameLoop`: the interval
has elapsed, the item type exists in `ELEMENTAL_INGREDIENTS`, an outbound
connection exists, and its points are non-empty. -/
def spawnerFires (now : ℚ) (conns : List Connection) (s : Spawner) : Bool :=
  decide (s.spawnInterval ≤ now - s.lastSpawn) &&
  (ELEMENTAL_INGREDIENTS.find? (fun ing => ing.1 == s.itemType)).isSome &&
  (match conns.find? (fun c => c.fromId == s.id && c.fromType == .spawner) with
   | some oc => decide (0 < oc.points.length)
   | none => false)

/-- The spawn section of `gameLoop`: iterate over the spawners in order;
when one fires, push a new item and replace the spawner with
`{ ...spawner, lastSpawn: now }`; otherwise leave the spawner untouched.
`uuid`/`k` thread the `uuidv4()` oracle.  Returns the updated spawner
list, the newly pushed items in push order, and the next oracle index. -/
def spawnLoop (uuid : ℕ → String) (now : ℚ) (conns : List Connection) :
    List Spawner → ℕ → List Spawner × List GameItem × ℕ
  | [], k => ([], [], k)
  | s :: rest, k =>
    if s.spawnInterval ≤ now - s.lastSpawn then
      match ELEMENTAL_INGREDIENTS.find? (fun ing => ing.1 == s.itemType),
            conns.find? (fun c => c.fromId == s.id && c.fromType == .spawner) with
      | some ing, some oc =>
        if 0 < oc.points.length then
          let item := mkSpawnedItem (uuid k) ing oc
          let r := spawnLoop uuid now conns rest (k + 1)
          ({ s with lastSpawn := now } :: r.1, item :: r.2.1, r.2.2)
        else
          let r := spawnLoop uuid now conns rest k
          (s :: r.1, r.2.1, r.2.2)
      | _, _ =>
        let r := spawnLoop uuid now conns rest k
        (s :: r.1, r.2.1, r.2.2)
    else
      let r := spawnLoop uuid now conns rest k
      (s :: r.1, r.2.1, r.2.2)

/-! ### Item movement (`gameLoop`, movement section) -/

/-- Outcome of the per-item branch of the movement loop. -/
inductive MoveResult where
  /-- No arrival this tick: the (possibly position/progress-updated) item. -/
  | stay (it : GameItem)
  /-- Reached the sell sentinel: cash is credited and the id marked for
  removal; the list entry itself is left untouched until the filter. -/
  | sell
  /-- Reached a modifier destination: the item's id is offered to the
  destination modifier's pending-input list; the list entry is left
  untouched (the item is not removed at arrival). -/
  | toMod (destId : String)
  deriving DecidableEq, Repr

/-- The movement-loop body of `gameLoop` for a single item: find its
connection; with at least two path points, compute the path length via
`Math.sqrt` (`sqrtFn`), the progress increment
`(CONNECTION_SPEED * deltaTime) / 1000 / distance`, and
`newProgress = Math.min(progress + increment, 1)`.  A zero `distance`
makes the increment `+Infinity` in JavaScript, hence `newProgress = 1`;
the embedding writes that case explicitly.  On `newProgress ≥ 1` the item
arrives (sell or modifier); otherwise its position is linearly
interpolated and written back only if it moved more than `0.1` in either
axis or the progress changed. -/
def moveItemResult (sqrtFn : ℚ → ℚ) (deltaTime : ℚ)
    (conns : List Connection) (item : GameItem) : MoveResult :=
  match item.connectionId with
  | none => .stay item
  | some cid =>
    match conns.find? (fun c => c.id == cid) with
    | none => .stay item
    | some conn =>
      match conn.points with
      | p0 :: p1 :: _ =>
        let distance := sqrtFn ((p1.x - p0.x) ^ 2 + (p1.y - p0.y) ^ 2)
        let newProgress :=
          if distance = 0 then 1
          else min (item.progress + CONNECTION_SPEED * deltaTime / 1000 / distance) 1
        if 1 ≤ newProgress then
          match conn.toType with
          | .sell => .sell
          | .modifier => .toMod conn.toId
        else
          let t := newProgress
          let newX := p0.x + (p1.x - p0.x) * t
          let newY := p0.y + (p1.y - p0.y) * t
          if 1/10 < |newX - item.x| ∨ 1/10 < |newY - item.y| ∨
              newProgress ≠ item.progress then
            .stay { item with x := newX, y := newY, progress := newProgress }
          else
            .stay item
      | _ => .stay item

/-- The list entry after the movement loop visits an item: updated in the
`stay` case, untouched on arrival (arrived items are only removed later,
by the sell filter or by modifier processing). -/
def moveItemKeep (sqrtFn : ℚ → ℚ) (deltaTime : ℚ)
    (conns : List Connection) (item : GameItem) : GameItem :=
  match moveItemResult sqrtFn deltaTime conns item with
  | .stay it => it
  | .sell => item
  | .toMod _ => item

/-- `modifier.inputs.push(item.id)` guarded by
`modifier && !modifier.inputs.includes(item.id)`: append the id to the
first modifier with the destination id, unless already present. -/
def pushInput (destId itemId : String) : List GameModifier → List GameModifier
  | [] => []
  | m :: rest =>
    if m.id == destId then
      (if itemId ∈ m.inputs then m else { m with inputs := m.inputs ++ [itemId] })
        :: rest
    else
      m :: pushInput destId itemId rest

/-- Accumulator of the movement loop: the rebuilt item list, the
modifier list (mutated by arrival pushes), the running cash total, and
the `itemsToRemove` id set. -/
structure MoveAcc where
  items : List GameItem
  mods : List GameModifier
  cash : ℚ
  removed : List String
  deriving Repr

/-- One step of the movement loop, dispatching on `moveItemResult`. -/
def moveStep (sqrtFn : ℚ → ℚ) (deltaTime : ℚ) (conns : List Connection)
    (acc : MoveAcc) (item : GameItem) : MoveAcc :=
  match moveItemResult sqrtFn deltaTime conns item with
  | .stay it => { acc with items := acc.items ++ [it] }
  | .sell =>
    { acc with items := acc.items ++ [item],
               cash := acc.cash + item.cashPerItem,
               removed := acc.removed ++ [item.id] }
  | .toMod destId =>
    { acc with items := acc.items ++ [item],
               mods := pushInput destId item.id acc.mods }

/-- The movement section of `gameLoop`: fold `moveStep` over the items. -/
def moveLoop (sqrtFn : ℚ → ℚ) (deltaTime : ℚ) (conns : List Connection)
    (items : List GameItem) (mods : List GameModifier) (cash : ℚ) : MoveAcc :=
  items.foldl (moveStep sqrtFn deltaTime conns)
    { items := [], mods := mods, cash := cash, removed := [] }

/-! ### Modifier processing (`processCombination` and the processing
section of `gameLoop`) -/

/-- The output item pushed by `processCombination`: fresh id, the
resolved record's fields, positioned at the modifier's outbound
connection's start point, `progress: 0`, attached to that connection. -/
def mkOutputItem (freshId : String) (result : GPTResponse)
    (oc : Connection) (p0 : Point) : GameItem :=
  { id := freshId, name := result.name, emoji := result.emoji,
    cashPerItem := result.cashPerItem, type := result.type,
    x := p0.x, y := p0.y, vx := 0, vy := 0, progress := 0,
    connectionId := some oc.id }

/-- JavaScript object lookup `discoveredCombos[cacheKey]` (first binding
wins). -/
def comboLookup (combos : List (String × GPTResponse)) (k : String) :
    Option GPTResponse :=
  List.lookup k combos

/-- `processCombination` from `useGameEngine.ts`: compute the cache key
with `getCachedCombo`; on a miss call the external resolver (`gen`, the
awaited `combineItems`) and store the result; find the modifier's output
connection and, if present, push a new output item at its start point.
The source function is `async`; on a cache hit it runs synchronously
within the tick, and on a miss the store and push are performed by the
resumed continuation — the embedding performs them in place
(`saveDiscoveredCombos` is persistence I/O and is not modelled).
Returns the updated cache, item list, and uuid counter. -/
def processCombination (uuid : ℕ → String)
    (gen : List String → String → GPTResponse)
    (inputItems : List GameItem) (m : GameModifier)
    (conns : List Connection) (items : List GameItem)
    (combos : List (String × GPTResponse)) (k : ℕ) :
    List (String × GPTResponse) × List GameItem × ℕ :=
  let ingredientNames := inputItems.map (fun it => it.name)
  let cacheKey := getCachedCombo ingredientNames m.name
  let resolved :=
    match comboLookup combos cacheKey with
    | some r => (r, combos)
    | none =>
      let r := gen ingredientNames m.name
      (r, (cacheKey, r) :: combos)
  let result := resolved.1
  match conns.find? (fun c => c.fromId == m.id && c.fromType == .modifier) with
  | some oc =>
    match oc.points with
    | p0 :: _ =>
      (resolved.2, items ++ [mkOutputItem (uuid k) result oc p0], k + 1)
    | [] =>
      -- `points[0]` is always present here in a tick, because every
      -- connection's points were recomputed to a two-point segment in
      -- step 1; kept total for the embedding.
      (resolved.2, items, k)
  | none => (resolved.2, items, k)

/-- The modifier-processing section of `gameLoop`: for each modifier with
a non-empty pending-input list whose interval has elapsed, look up the
pending items (dropping dangling ids), and if any remain: run
`processCombination`, filter out the consumed items, and replace the
modifier with cleared inputs and `lastProcess = now`. -/
def processLoop (uuid : ℕ → String)
    (gen : List String → String → GPTResponse) (now : ℚ)
    (conns : List Connection) :
    List GameModifier → List GameItem → List (String × GPTResponse) → ℕ →
    List GameModifier × List GameItem × List (String × GPTResponse) × ℕ
  | [], items, combos, k => ([], items, combos, k)
  | m :: rest, items, combos, k =>
    if 0 < m.inputs.length ∧ m.processInterval ≤ now - m.lastProcess then
      let inputItems :=
        m.inputs.filterMap (fun iid => items.find? (fun it => it.id == iid))
      if 0 < inputItems.length then
        let step := processCombination uuid gen inputItems m conns items combos k
        let items' := step.2.1.filter (fun it => it.id ∉ m.inputs)
        let r := processLoop uuid gen now conns rest items' step.1 step.2.2
        ({ m with inputs := [], lastProcess := now } :: r.1, r.2)
      else
        let r := processLoop uuid gen now conns rest items combos k
        (m :: r.1, r.2)
    else
      let r := processLoop uuid gen now conns rest items combos k
      (m :: r.1, r.2)

/-! ### Cash-per-minute (`updateCashPerMinute`) -/

/-- `updateCashPerMinute` from `useGameEngine.ts`: push a
`(now, totalCash)` sample, keep only samples strictly newer than
`now − 60000`, and when more than one sample remains and the span from
oldest to latest is positive, set
`cashPerMinute = (cashDiff / timeDiff) * 60000`; otherwise leave the
previous rate unchanged. -/
def updateCashPerMinute (st : GameState) (now : ℚ) : GameState :=
  let hist0 := st.cashHistory ++ [{ timestamp := now, cash := st.totalCash }]
  let oneMinuteAgo := now - 60000
  let hist := hist0.filter (fun e => oneMinuteAgo < e.timestamp)
  if 1 < hist.length then
    let oldestEntry := hist.headI
    let latestEntry := hist.getLastD default
    let timeDiff := latestEntry.timestamp - oldestEntry.timestamp
    let cashDiff := latestEntry.cash - oldestEntry.cash
    if 0 < timeDiff then
      { st with cashHistory := hist,
                cashPerMinute := cashDiff / timeDiff * 60000 }
    else
      { st with cashHistory := hist }
  else
    { st with cashHistory := hist }

/-! ### The tick (`gameLoop`) -/

/-- The `setGameState` updater body of `gameLoop`: (1) recompute every
connection's points (the source assigns the recomputed array only when
an endpoint differs, which is value-equivalent to always assigning it);
(2) spawner emission; (3) item movement, then the sell-removal filter;
(4) modifier processing; (5) once per second, the cash-per-minute
update.  The `hasChanges ? newState : prev` result is value-equal to
`newState` and is embedded as such.  `recomputeConnections` is step (1):
`newState.connections.map(conn => ({ ...conn, points:
calculateConnectionPoints(...) }))`. -/
def recomputeConnections (st : GameState) : List Connection :=
  st.connections.map (fun c =>
    { c with points := calculateConnectionPoints c st.spawners st.modifiers })

/-- The rest of the updater: steps (2) spawner emission, (3) item
movement and the sell-removal filter, (4) modifier processing, and
(5) the once-per-second cash-per-minute update. -/
def updateGame (sqrtFn : ℚ → ℚ) (uuid : ℕ → String)
    (gen : List String → String → GPTResponse)
    (st : GameState) (now deltaTime : ℚ) : GameState :=
  let conns := recomputeConnections st
  let spawned := spawnLoop uuid now conns st.spawners 0
  let items0 := st.items ++ spawned.2.1
  let moved := moveLoop sqrtFn deltaTime conns items0 st.modifiers st.totalCash
  let items2 :=
    if moved.removed ≠ [] then
      moved.items.filter (fun it => it.id ∉ moved.removed)
    else moved.items
  let processed :=
    processLoop uuid gen now conns moved.mods items2 st.discoveredCombos
      spawned.2.2
  let st' := { st with
    connections := conns, spawners := spawned.1, items := processed.2.1,
    modifiers := processed.1, totalCash := moved.cash,
    discoveredCombos := processed.2.2.1 }
  if 1000 < now - st.lastCashUpdate then
    { updateCashPerMinute st' now with lastCashUpdate := now }
  else st'

/-- One invocation of `gameLoop` at wall-clock time `now`: compute
`deltaTime` against the `lastFrameTime` ref; below the 60 fps frame
budget nothing happens; otherwise advance `lastFrameTime` and, when
`now − lastUpdateTime` also exceeds the frame budget, run the state
update with the measured `deltaTime`. -/
def tick (sqrtFn : ℚ → ℚ) (uuid : ℕ → String)
    (gen : List String → String → GPTResponse)
    (est : EngineState) (now : ℚ) : EngineState :=
  let deltaTime := now - est.lastFrameTime
  if deltaTime < FRAME_TIME then est
  else if FRAME_TIME < now - est.lastUpdateTime then
    { game := updateGame sqrtFn uuid gen est.game now deltaTime,
      lastFrameTime := now, lastUpdateTime := now }
  else
    { est with lastFrameTime := now }

/-- A run of the engine: successive `gameLoop` invocations at the given
wall-clock times; `uuid n` supplies the id oracle of the `n`-th tick. -/
def runTicks (sqrtFn : ℚ → ℚ) (uuid : ℕ → ℕ → String)
    (gen : List String → String → GPTResponse) :
    EngineState → List ℚ → ℕ → EngineState
  | est, [], _ => est
  | est, t :: ts, n => runTicks sqrtFn uuid gen (tick sqrtFn (uuid n) gen est t) ts (n + 1)

/-- The cash credit an item contributes during the movement loop: its
`cashPerItem` exactly when it reaches the sell sentinel this tick,
otherwise nothing. -/
def sellCredit (sqrtFn : ℚ → ℚ) (deltaTime : ℚ) (conns : List Connection)
    (it : GameItem) : ℚ :=
  match moveItemResult sqrtFn deltaTime conns it with
  | .sell => it.cashPerItem
  | _ => 0

/-- Whether an item reaches the sell sentinel during this tick's
movement loop. -/
def arrivesAtSell (sqrtFn : ℚ → ℚ) (deltaTime : ℚ) (conns : List Connection)
    (it : GameItem) : Bool :=
  match moveItemResult sqrtFn deltaTime conns it with
  | .sell => true
  | _ => false

/-- The effect of one item's movement on the modifier list: a push on
arrival at a modifier, nothing otherwise. -/
def applyArrival (sqrtFn : ℚ → ℚ) (deltaTime : ℚ) (conns : List Connection)
    (ms : List GameModifier) (it : GameItem) : List GameModifier :=
  match moveItemResult sqrtFn deltaTime conns it with
  | .toMod destId => pushInput destId it.id ms
  | _ => ms

/-- The pending-input list of the first modifier with a given id (the
one `newState.modifiers.find(m => m.id === connection.toId)` returns). -/
def inputsOfFirst (ms : List GameModifier) (d : String) : Option (List String) :=
  (ms.find? (fun m => m.id == d)).map (fun m => m.inputs)

/-- The two frame-budget guards of `gameLoop` at time `now`: the tick's
state update runs exactly when both hold. -/
def tickRuns (est : EngineState) (now : ℚ) : Bool :=
  decide (FRAME_TIME ≤ now - est.lastFrameTime) &&
  decide (FRAME_TIME < now - est.lastUpdateTime)

/-- Whether, on the `gameLoop` invocation at time `now`, the spawner at
index `i` fires (the guards pass and its firing condition holds against
the recomputed connections). -/
def tickFires (est : EngineState) (now : ℚ) (i : ℕ) : Bool :=
  tickRuns est now &&
  (match est.game.spawners.get? i with
   | some s => spawnerFires now (recomputeConnections est.game) s
   | none => false)

/-- The engine state after the first `n` of the ticks at times `ts`. -/
def runPrefix (sqrtFn : ℚ → ℚ) (uuid : ℕ → ℕ → String)
    (gen : List String → String → GPTResponse)
    (est : EngineState) (ts : List ℚ) (n : ℕ) : EngineState :=
  runTicks sqrtFn uuid gen est (ts.take n) 0

/-- Whether the spawner at index `i` fires at the `n`-th tick of the run
at times `ts`. -/
def firesAt (sqrtFn : ℚ → ℚ) (uuid : ℕ → ℕ → String)
    (gen : List String → String → GPTResponse)
    (est : EngineState) (ts : List ℚ) (n : ℕ) (i : ℕ) : Bool :=
  tickFires (runPrefix sqrtFn uuid gen est ts n) (ts.getD n 0) i

/-- An empty game state, used for concrete evaluations. -/
def emptyGame : GameState :=
  { items := [], spawners := [], connections := [], modifiers := [],
    totalCash := 0, cashPerMinute := 0, discoveredCombos := [],
    lastCashUpdate := 0, cashHistory := [] }

/-- An engine state over `emptyGame` with both timers at 0. -/
def emptyEngine : EngineState :=
  { game := emptyGame, lastFrameTime := 0, lastUpdateTime := 0 }

/-- A sample resolver oracle for concrete evaluations. -/
def sampleGen : List String → String → GPTResponse :=
  fun _ _ => { name := "Steam", emoji := "s", cashPerItem := 42,
               type := .Ingredient }

/-- A sample id oracle for concrete evaluations (injective by length). -/
def sampleUuid : ℕ → String := fun k => String.mk (List.replicate k 'a')

/-- A modifier fixture at the origin (so connection endpoints to it are
degenerate), not yet due for processing at time 1000. -/
def cexModifier : GameModifier :=
  { id := "m1", x := 0, y := 0, width := 0, height := 0, name := "Heat",
    emoji := "h", inputs := [], lastProcess := 1000, processInterval := 2000 }

/-- A connection fixture from a non-existent spawner to `cexModifier`
(both recomputed endpoints are the origin: a zero-length path). -/
def cexConnection : Connection :=
  { id := "c1", fromId := "s1", toId := "m1", fromType := .spawner,
    toType := .modifier, points := [], speed := 80 }

/-- An item fixture traveling on `cexConnection`. -/
def cexItem (i : String) : GameItem :=
  { id := i, name := "Water", emoji := "w", cashPerItem := 15,
    type := .Ingredient, x := 0, y := 0, vx := 0, vy := 0,
    progress := 99/100, connectionId := some "c1" }

/-- Engine fixture: four items all arriving at `cexModifier` in the same
tick, before its processing interval elapses. -/
def crowdedEngine : EngineState :=
  { game :=
      { items := [cexItem "i1", cexItem "i2", cexItem "i3", cexItem "i4"],
        spawners := [], connections := [cexConnection],
        modifiers := [cexModifier], totalCash := 0, cashPerMinute := 0,
        discoveredCombos := [], lastCashUpdate := 1000, cashHistory := [] },
    lastFrameTime := 0, lastUpdateTime := 0 }

/-- Engine fixture: a single item arriving at `cexModifier` in this
tick, before its processing interval elapses. -/
def arrivalEngine : EngineState :=
  { game :=
      { items := [cexItem "i1"],
        spawners := [], connections := [cexConnection],
        modifiers := [cexModifier], totalCash := 0, cashPerMinute := 0,
        discoveredCombos := [], lastCashUpdate := 1000, cashHistory := [] },
    lastFrameTime := 0, lastUpdateTime := 0 }

/-- A spawner fixture: Water spawner, interval 3000, last emission at 0. -/
def lonelySpawner : Spawner :=
  { id := "s1", x := 0, y := 0, width := 80, height := 60,
    itemType := "Water", lastSpawn := 0, spawnInterval := 3000 }

/-- Engine fixture around `lonelySpawner`, with no connections. -/
def spawnerEngine : EngineState :=
  { game := { emptyGame with spawners := [lonelySpawner] },
    lastFrameTime := 0, lastUpdateTime := 0 }

/-- An outbound connection fixture for `lonelySpawner`. -/
def outConnection : Connection :=
  { id := "c2", fromId := "s1", toId := "sell", fromType := .spawner,
    toType := .sell, points := [⟨80, 30⟩, ⟨860, 400⟩], speed := 80 }

/-! ## Lemmas about the discovery cache -/

/-- On a cache hit, `AIService.combineItems` returns the stored record,
leaves the cache unchanged, and does not invoke the generator. -/
theorem combineItems_hit (genNew : List String → String → ItemData)
    (combos : ComboCache) (ing : List String) (m : String) {v : ItemData}
    (h : cacheLookup combos (createCacheKey ing m) = some v) :
    AIService.combineItems genNew combos ing m =
      ({ name := v.name, emoji := v.emoji,
         cashPerItem := v.cashPerItem.getD 0, type := .Ingredient,
         rarity := v.rarity, category := v.category,
         complexity := v.complexity, description := v.description,
         isNewDiscovery := false }, combos, false) := by
  simp only [AIService.combineItems]
  rw [h]

/-- On a cache miss, `AIService.combineItems` invokes the generator,
stores its record under the request's key, and returns it as a new
discovery. -/
theorem combineItems_miss (genNew : List String → String → ItemData)
    (combos : ComboCache) (ing : List String) (m : String)
    (h : cacheLookup combos (createCacheKey ing m) = none) :
    AIService.combineItems genNew combos ing m =
      ({ name := (genNew ing m).name, emoji := (genNew ing m).emoji,
         cashPerItem := (genNew ing m).cashPerItem.getD 0, type := .Ingredient,
         rarity := (genNew ing m).rarity, category := (genNew ing m).category,
         complexity := (genNew ing m).complexity,
         description := (genNew ing m).description,
         isNewDiscovery := true },
       cacheSet combos (createCacheKey ing m) (genNew ing m), true) := by
  simp only [AIService.combineItems]
  rw [h]

/-- A cache binding survives a single `AIService.combineItems` request:
on a hit the cache is unchanged, and on a miss only a key that was absent
is added in front. -/
theorem cacheLookup_combineItems_persist (genNew : List String → String → ItemData)
    (combos : ComboCache) (ing : List String) (m : String) {k : String}
    {v : ItemData} (h : cacheLookup combos k = some v) :
    cacheLookup (AIService.combineItems genNew combos ing m).2.1 k = some v := by
  cases hl : cacheLookup combos (createCacheKey ing m) with
  | some cached => rw [combineItems_hit genNew combos ing m hl]; exact h
  | none =>
    rw [combineItems_miss genNew combos ing m hl]
    have hne : (k == createCacheKey ing m) = false := by
      rcases h' : k == createCacheKey ing m with _ | _
      · rfl
      · exfalso
        have hk : k = createCacheKey ing m := by simpa using h'
        rw [hk] at h
        rw [h] at hl
        exact Option.noConfusion hl
    simpa [cacheLookup, cacheSet, List.lookup, hne] using h

/-- A cache binding survives any sequence of requests. -/
theorem cacheLookup_runRequests_persist (genNew : List String → String → ItemData)
    (reqs : List (List String × String)) (combos : ComboCache) {k : String}
    {v : ItemData} (h : cacheLookup combos k = some v) :
    cacheLookup (AIService.runRequests genNew combos reqs) k = some v := by
  induction reqs generalizing combos with
  | nil => simpa [AIService.runRequests] using h
  | cons r rest ih =>
    simp only [AIService.runRequests]
    exact ih _ (cacheLookup_combineItems_persist genNew combos r.1 r.2 h)

/-- After a request, the request's own key is bound, and the response
fields agree with the binding. -/
theorem combineItems_key_bound (genNew : List String → String → ItemData)
    (combos : ComboCache) (ing : List String) (m : String) :
    ∃ v : ItemData,
      cacheLookup (AIService.combineItems genNew combos ing m).2.1
        (createCacheKey ing m) = some v ∧
      (AIService.combineItems genNew combos ing m).1 =
        { name := v.name, emoji := v.emoji,
          cashPerItem := v.cashPerItem.getD 0, type := .Ingredient,
          rarity := v.rarity, category := v.category,
          complexity := v.complexity, description := v.description,
          isNewDiscovery :=
            (AIService.combineItems genNew combos ing m).1.isNewDiscovery } := by
  cases hl : cacheLookup combos (createCacheKey ing m) with
  | some cached =>
    rw [combineItems_hit genNew combos ing m hl]
    exact ⟨cached, hl, rfl⟩
  | none =>
    rw [combineItems_miss genNew combos ing m hl]
    refine ⟨genNew ing m, ?_, rfl⟩
    simp [cacheLookup, cacheSet, List.lookup]

/-- C1: for every sequence of combination-resolution requests, once a
combination with a given sorted ingredient list and modifier has been
resolved once, every later request for the same sorted ingredient list
and the same modifier returns exactly the record stored by that first
resolution, marked as not a new discovery, leaves the cache unchanged,
and does not invoke the generator (neither the external call nor the
fallback, both of which live behind `generateNewCombination`); moreover
the engine-side `processCombination` is, on a cache hit, independent of
the external resolver and leaves the discovery cache unchanged. -/
theorem combination_cache_hit (genNew : List String → String → ItemData)
    (combos : ComboCache) (ing ing' : List String) (m m' : String)
    (reqs : List (List String × String))
    (hsort : ing'.insertionSort jsStringLe = ing.insertionSort jsStringLe)
    (hmod : m' = m) :
    (let r1 := AIService.combineItems genNew combos ing m
     let c2 := AIService.runRequests genNew r1.2.1 reqs
     let r2 := AIService.combineItems genNew c2 ing' m'
     r2.2.2 = false ∧ r2.2.1 = c2 ∧
       r2.1 = { r1.1 with isNewDiscovery := false }) ∧
    (∀ (uuid : ℕ → String) (gen gen' : List String → String → GPTResponse)
       (inputItems : List GameItem) (md : GameModifier)
       (conns : List Connection) (items : List GameItem)
       (ecombos : List (String × GPTResponse)) (k : ℕ),
       (comboLookup ecombos
         (getCachedCombo (inputItems.map (fun it => it.name)) md.name)).isSome →
       processCombination uuid gen inputItems md conns items ecombos k =
         processCombination uuid gen' inputItems md conns items ecombos k ∧
       (processCombination uuid gen inputItems md conns items ecombos k).1 =
         ecombos) := by
  constructor
  · have hkey : createCacheKey ing' m' = createCacheKey ing m := by
      unfold createCacheKey
      rw [hsort, hmod]
    obtain ⟨v, hv, hr1⟩ := combineItems_key_bound genNew combos ing m
    have hv2 : cacheLookup
        (AIService.runRequests genNew
          (AIService.combineItems genNew combos ing m).2.1 reqs)
        (createCacheKey ing' m') = some v := by
      rw [hkey]
      exact cacheLookup_runRequests_persist genNew reqs _ hv
    simp only
    rw [combineItems_hit genNew _ ing' m' hv2]
    refine ⟨rfl, rfl, ?_⟩
    rw [hr1]
  · intro uuid gen gen' inputItems md conns items ecombos k hhit
    rcases Option.isSome_iff_exists.mp hhit with ⟨r, hr⟩
    simp only [processCombination, hr]
    refine ⟨trivial, ?_⟩
    cases hfind : conns.find? (fun c => c.fromId == md.id &&
        c.fromType == FromType.modifier) with
    | none => simp [hfind]
    | some oc =>
      cases hp : oc.points with
      | nil => simp [hfind, hp]
      | cons p ps => simp [hfind, hp]

/-- Witness for `combination_cache_hit` at a concrete input: the inputs
`["Water", "Fire"]` and `["Fire", "Water"]` sort identically, and the
second resolution of (`Fire`,`Water`) with `Heat` is a non-generating
cache hit returning the stored record. -/
theorem combination_cache_hit_witness :
    (["Fire", "Water"].insertionSort jsStringLe =
      ["Water", "Fire"].insertionSort jsStringLe) ∧
    (let genNew := fun (_ : List String) (_ : String) =>
       ({ name := "Steam", emoji := "💨", cashPerItem := some 42 } : ItemData)
     let r1 := AIService.combineItems genNew [] ["Water", "Fire"] "Heat"
     let c2 := AIService.runRequests genNew r1.2.1 [(["Earth"], "Mix")]
     let r2 := AIService.combineItems genNew c2 ["Fire", "Water"] "Heat"
     r2.2.2 = false ∧ r2.2.1 = c2 ∧
       r2.1 = { r1.1 with isNewDiscovery := false }) := by
  refine ⟨by decide, ?_⟩
  exact (combination_cache_hit
    (fun _ _ => { name := "Steam", emoji := "💨", cashPerItem := some 42 })
    [] ["Water", "Fire"] ["Fire", "Water"] "Heat" "Heat" [(["Earth"], "Mix")]
    (by decide) rfl).1

/-! ## The resolver fallback (claim C6) -/

/-- Every entry of the fallback table is fully populated and, when the
random draws are non-negative, carries a strictly positive cash value. -/
theorem generateFallbackResponse_valid (rands : Fin 5 → ℚ) (pick : ℚ)
    (ingredients : List String) (modifier : String)
    (h0 : 0 ≤ pick) (h1 : pick < 1) (hr : ∀ i, 0 ≤ rands i) :
    (generateFallbackResponse rands pick ingredients modifier).name ≠ "" ∧
    (generateFallbackResponse rands pick ingredients modifier).emoji ≠ "" ∧
    0 < (generateFallbackResponse rands pick ingredients modifier).cashPerItem := by
  have hfloor : ∀ (i : Fin 5) (c b : ℚ), 0 < c → 0 < b →
      (0 : ℚ) < ((⌊rands i * c⌋ : ℤ) : ℚ) + b := by
    intro i c b hc hb
    have h : (0 : ℤ) ≤ ⌊rands i * c⌋ :=
      Int.floor_nonneg.mpr (mul_nonneg (hr i) hc.le)
    have h' : (0 : ℚ) ≤ ((⌊rands i * c⌋ : ℤ) : ℚ) := by exact_mod_cast h
    linarith
  have hn0 : (0 : ℤ) ≤ ⌊pick * 5⌋ := Int.floor_nonneg.mpr (by positivity)
  have hn5 : ⌊pick * 5⌋ < 5 := by
    apply Int.floor_lt.mpr
    push_cast
    linarith
  have hcase : (⌊pick * 5⌋).toNat = 0 ∨ (⌊pick * 5⌋).toNat = 1 ∨
      (⌊pick * 5⌋).toNat = 2 ∨ (⌊pick * 5⌋).toNat = 3 ∨
      (⌊pick * 5⌋).toNat = 4 := by omega
  unfold generateFallbackResponse
  rcases hcase with h | h | h | h | h <;> rw [h] <;>
    refine ⟨by simp, by simp, ?_⟩
  · have := hfloor 0 1000 100 (by norm_num) (by norm_num)
    simpa using this
  · have := hfloor 1 10000 1000 (by norm_num) (by norm_num)
    simpa using this
  · have := hfloor 2 100000 10000 (by norm_num) (by norm_num)
    simpa using this
  · have := hfloor 3 1000000 100000 (by norm_num) (by norm_num)
    simpa using this
  · have := hfloor 4 10000000 1000000 (by norm_num) (by norm_num)
    simpa using this

/-- C6: with no external-service credential configured, resolving any
combination performs no network access (the request flag is `false`) and
returns a template whose required fields are populated — non-empty name
and emoji, a concrete type, and a strictly positive cash value — for any
ingredient list and modifier, in particular `["Water", "Fire"]` with
`"Heat"`. -/
theorem resolver_fallback_no_network (apiKey : Option String)
    (net : Option RawResponse) (rands : Fin 5 → ℚ) (pick : ℚ)
    (ingredients : List String) (modifier : String)
    (hkey : apiKeyMissing apiKey = true)
    (h0 : 0 ≤ pick) (h1 : pick < 1) (hr : ∀ i, 0 ≤ rands i) :
    (combineItems apiKey net rands pick ingredients modifier).2 = false ∧
    (combineItems apiKey net rands pick ingredients modifier).1.name ≠ "" ∧
    (combineItems apiKey net rands pick ingredients modifier).1.emoji ≠ "" ∧
    0 < (combineItems apiKey net rands pick ingredients modifier).1.cashPerItem := by
  obtain ⟨hname, hemoji, hcash⟩ :=
    generateFallbackResponse_valid rands pick ingredients modifier h0 h1 hr
  simp only [combineItems, hkey, if_true]
  exact ⟨trivial, hname, hemoji, hcash⟩

/-- Witness for `resolver_fallback_no_network`: no credential, a network
oracle that would answer, and concrete random draws; the resolver takes
the fallback path without issuing the request and produces a valid
positive-cash template for `["Water", "Fire"]` with `"Heat"`. -/
theorem resolver_fallback_no_network_witness :
    (combineItems none
        (some { name := "X", emoji := "Y", cashPerItem := 1,
                type := some ItemType.Ingredient })
        (fun _ => 1/2) (1/2) ["Water", "Fire"] "Heat").2 = false ∧
    (combineItems none
        (some { name := "X", emoji := "Y", cashPerItem := 1,
                type := some ItemType.Ingredient })
        (fun _ => 1/2) (1/2) ["Water", "Fire"] "Heat").1.name ≠ "" ∧
    (combineItems none
        (some { name := "X", emoji := "Y", cashPerItem := 1,
                type := some ItemType.Ingredient })
        (fun _ => 1/2) (1/2) ["Water", "Fire"] "Heat").1.emoji ≠ "" ∧
    0 < (combineItems none
        (some { name := "X", emoji := "Y", cashPerItem := 1,
                type := some ItemType.Ingredient })
        (fun _ => 1/2) (1/2) ["Water", "Fire"] "Heat").1.cashPerItem :=
  resolver_fallback_no_network none _ (fun _ => 1/2) (1/2) ["Water", "Fire"]
    "Heat" (by decide) (by norm_num) (by norm_num) (fun i => by norm_num)

/-! ## Cash-per-minute (claim C5) -/

/-- C5: the cash-per-minute update first appends a `(now, totalCash)`
sample and prunes samples not strictly newer than `now − 60000`; on the
ledger window `[(t0, 100), (t0 + 30000, 130)]` — previous history
`[(t0, 100)]`, current total `130`, `now = t0 + 30000` — the resulting
rate is `(130 − 100) / 30000 × 60000 = 60`; in general, when at least
two samples remain and the span from oldest to newest is positive, the
new rate is `(newest.cash − oldest.cash) / (newest.timestamp −
oldest.timestamp) × 60000`, and otherwise the previous rate is left
unchanged. -/
theorem cashPerMinute_spec (st : GameState) (now t0 : ℚ) :
    (st.cashHistory = [{ timestamp := t0, cash := 100 }] → st.totalCash = 130 →
      (updateCashPerMinute st (t0 + 30000)).cashPerMinute = 60) ∧
    ((updateCashPerMinute st now).cashHistory =
      (st.cashHistory ++ [({ timestamp := now, cash := st.totalCash } : CashEntry)]).filter
        (fun e => now - 60000 < e.timestamp)) ∧
    (∀ hist : List CashEntry, hist =
        (st.cashHistory ++ [({ timestamp := now, cash := st.totalCash } : CashEntry)]).filter
          (fun e => now - 60000 < e.timestamp) →
      ((hist.length ≤ 1 ∨
          (hist.getLastD default).timestamp - hist.headI.timestamp ≤ 0) →
        (updateCashPerMinute st now).cashPerMinute = st.cashPerMinute) ∧
      (1 < hist.length →
        0 < (hist.getLastD default).timestamp - hist.headI.timestamp →
        (updateCashPerMinute st now).cashPerMinute =
          ((hist.getLastD default).cash - hist.headI.cash) /
            ((hist.getLastD default).timestamp - hist.headI.timestamp) *
            60000)) := by
  refine ⟨?_, ?_, ?_⟩
  · intro hh hc
    have ha : t0 + 30000 - 60000 < t0 := by linarith
    have hb : t0 + 30000 - 60000 < t0 + 30000 := by linarith
    have hc30 : (0 : ℚ) < t0 + 30000 - t0 := by linarith
    simp only [updateCashPerMinute, hh, hc, List.cons_append, List.nil_append,
      List.filter, decide_eq_true ha, decide_eq_true hb]
    norm_num [List.headI, List.getLastD, hc30]
  · simp only [updateCashPerMinute]
    split
    · split <;> rfl
    · rfl
  · intro hist hhist
    subst hhist
    constructor
    · intro hguard
      simp only [updateCashPerMinute]
      rcases hguard with hlen | hspan
      · rw [if_neg (by omega)]
      · by_cases hlen2 : 1 <
          ((st.cashHistory ++
            [({ timestamp := now, cash := st.totalCash } : CashEntry)]).filter
              (fun e => now - 60000 < e.timestamp)).length
        · rw [if_pos hlen2, if_neg (by linarith)]
        · rw [if_neg hlen2]
    · intro hlen hspan
      simp only [updateCashPerMinute]
      rw [if_pos hlen, if_pos hspan]

/-- Witness for `cashPerMinute_spec` at a concrete state: previous
history `[(0, 100)]`, total `130`, update at `30000`; the rate is 60. -/
theorem cashPerMinute_spec_witness :
    (updateCashPerMinute
      { items := [], spawners := [], connections := [], modifiers := [],
        totalCash := 130, cashPerMinute := 0, discoveredCombos := [],
        lastCashUpdate := 0,
        cashHistory := [{ timestamp := 0, cash := 100 }] }
      (0 + 30000)).cashPerMinute = 60 :=
  (cashPerMinute_spec
    { items := [], spawners := [], connections := [], modifiers := [],
      totalCash := 130, cashPerMinute := 0, discoveredCombos := [],
      lastCashUpdate := 0,
      cashHistory := [{ timestamp := 0, cash := 100 }] }
    0 0).1 rfl rfl
/-! ## Lemmas about spawner emission -/

/-- The spawn section updates each spawner independently: exactly the
firing spawners get `lastSpawn := now`, all other fields and the list
order are untouched. -/
theorem spawnLoop_spawners (uuid : ℕ → String) (now : ℚ)
    (conns : List Connection) :
    ∀ (ss : List Spawner) (k : ℕ),
    (spawnLoop uuid now conns ss k).1 =
      ss.map (fun s => if spawnerFires now conns s
        then { s with lastSpawn := now } else s) := by
  intro ss
  induction ss with
  | nil => intro k; rfl
  | cons s rest ih =>
    intro k
    by_cases h1 : s.spawnInterval ≤ now - s.lastSpawn
    · cases hing : ELEMENTAL_INGREDIENTS.find? (fun ing => ing.1 == s.itemType) with
      | none => simp [spawnLoop, spawnerFires, h1, hing, ih]
      | some ing =>
        cases hoc : conns.find? (fun c => c.fromId == s.id &&
            c.fromType == FromType.spawner) with
        | none => simp [spawnLoop, spawnerFires, h1, hing, hoc, ih]
        | some oc =>
          by_cases h3 : 0 < oc.points.length
          · simp [spawnLoop, spawnerFires, h1, hing, hoc, h3, ih]
          · simp [spawnLoop, spawnerFires, h1, hing, hoc, h3, ih]
    · simp [spawnLoop, spawnerFires, h1, ih]

/-- The number of items pushed by the spawn section equals the number of
firing spawners. -/
theorem spawnLoop_items_count (uuid : ℕ → String) (now : ℚ)
    (conns : List Connection) :
    ∀ (ss : List Spawner) (k : ℕ),
    (spawnLoop uuid now conns ss k).2.1.length =
      ss.countP (fun s => spawnerFires now conns s) := by
  intro ss
  induction ss with
  | nil => intro k; rfl
  | cons s rest ih =>
    intro k
    by_cases h1 : s.spawnInterval ≤ now - s.lastSpawn
    · cases hing : ELEMENTAL_INGREDIENTS.find? (fun ing => ing.1 == s.itemType) with
      | none => simp [spawnLoop, spawnerFires, h1, hing, ih, List.countP_cons]
      | some ing =>
        cases hoc : conns.find? (fun c => c.fromId == s.id &&
            c.fromType == FromType.spawner) with
        | none => simp [spawnLoop, spawnerFires, h1, hing, hoc, ih, List.countP_cons]
        | some oc =>
          by_cases h3 : 0 < oc.points.length
          · simp [spawnLoop, spawnerFires, h1, hing, hoc, h3, ih, List.countP_cons]
          · simp [spawnLoop, spawnerFires, h1, hing, hoc, h3, ih, List.countP_cons]
    · simp [spawnLoop, spawnerFires, h1, ih, List.countP_cons]

/-- Every item pushed by the spawn section is freshly placed: progress
`0`, cash value `15`, type `Ingredient`, and a fresh id drawn from the
uuid oracle at an index at least the incoming counter. -/
theorem spawnLoop_items_mem (uuid : ℕ → String) (now : ℚ)
    (conns : List Connection) :
    ∀ (ss : List Spawner) (k : ℕ),
    ∀ it ∈ (spawnLoop uuid now conns ss k).2.1,
      it.progress = 0 ∧ it.cashPerItem = 15 ∧ it.type = .Ingredient ∧
      ∃ j, k ≤ j ∧ it.id = uuid j := by
  intro ss
  induction ss with
  | nil => intro k it hit; exact absurd hit (by simp [spawnLoop])
  | cons s rest ih =>
    intro k it hit
    by_cases h1 : s.spawnInterval ≤ now - s.lastSpawn
    · rcases hing : ELEMENTAL_INGREDIENTS.find? (fun ing => ing.1 == s.itemType) with
        _ | ing
      · rw [spawnLoop] at hit
        simp only [h1, if_true, hing] at hit
        exact ih k it hit
      · rcases hoc : conns.find? (fun c => c.fromId == s.id &&
            c.fromType == FromType.spawner) with _ | oc
        · rw [spawnLoop] at hit
          simp only [h1, if_true, hing, hoc] at hit
          exact ih k it hit
        · by_cases h3 : 0 < oc.points.length
          · rw [spawnLoop] at hit
            simp only [h1, if_true, hing, hoc, h3] at hit
            rcases List.mem_cons.mp hit with heq | htail
            · subst heq
              exact ⟨rfl, rfl, rfl, k, le_refl k, rfl⟩
            · obtain ⟨hp, hc, hty, j, hj, hid⟩ := ih (k + 1) it htail
              exact ⟨hp, hc, hty, j, by omega, hid⟩
          · rw [spawnLoop] at hit
            simp only [h1, if_true, hing, hoc, h3, if_false] at hit
            exact ih k it hit
    · rw [spawnLoop] at hit
      simp only [h1, if_false] at hit
      exact ih k it hit

/-- The uuid counter never decreases through the spawn section. -/
theorem spawnLoop_counter_le (uuid : ℕ → String) (now : ℚ)
    (conns : List Connection) :
    ∀ (ss : List Spawner) (k : ℕ), k ≤ (spawnLoop uuid now conns ss k).2.2 := by
  intro ss
  induction ss with
  | nil => intro k; exact le_refl k
  | cons s rest ih =>
    intro k
    by_cases h1 : s.spawnInterval ≤ now - s.lastSpawn
    · rcases hing : ELEMENTAL_INGREDIENTS.find? (fun ing => ing.1 == s.itemType) with
        _ | ing
      · simpa [spawnLoop, h1, hing] using ih k
      · rcases hoc : conns.find? (fun c => c.fromId == s.id &&
            c.fromType == FromType.spawner) with _ | oc
        · simpa [spawnLoop, h1, hing, hoc] using ih k
        · by_cases h3 : 0 < oc.points.length
          · have := ih (k + 1)
            simp only [spawnLoop, h1, if_true, hing, hoc, h3]
            omega
          · simpa [spawnLoop, h1, hing, hoc, h3] using ih k
    · simpa [spawnLoop, h1] using ih k

/-- Every spawned item's uuid index is below the outgoing counter. -/
theorem spawnLoop_items_id_lt (uuid : ℕ → String) (now : ℚ)
    (conns : List Connection) :
    ∀ (ss : List Spawner) (k : ℕ),
    ∀ it ∈ (spawnLoop uuid now conns ss k).2.1,
      ∃ j, k ≤ j ∧ j < (spawnLoop uuid now conns ss k).2.2 ∧ it.id = uuid j := by
  intro ss
  induction ss with
  | nil => intro k it hit; exact absurd hit (by simp [spawnLoop])
  | cons s rest ih =>
    intro k it hit
    by_cases h1 : s.spawnInterval ≤ now - s.lastSpawn
    · rcases hing : ELEMENTAL_INGREDIENTS.find? (fun ing => ing.1 == s.itemType) with
        _ | ing
      · rw [spawnLoop] at hit ⊢
        simp only [h1, if_true, hing] at hit ⊢
        exact ih k it hit
      · rcases hoc : conns.find? (fun c => c.fromId == s.id &&
            c.fromType == FromType.spawner) with _ | oc
        · rw [spawnLoop] at hit ⊢
          simp only [h1, if_true, hing, hoc] at hit ⊢
          exact ih k it hit
        · by_cases h3 : 0 < oc.points.length
          · rw [spawnLoop] at hit ⊢
            simp only [h1, if_true, hing, hoc, h3] at hit ⊢
            rcases List.mem_cons.mp hit with heq | htail
            · subst heq
              exact ⟨k, le_refl k,
                lt_of_lt_of_le (by omega) (spawnLoop_counter_le uuid now conns rest (k + 1)),
                rfl⟩
            · obtain ⟨j, hj1, hj2, hid⟩ := ih (k + 1) it htail
              exact ⟨j, by omega, hj2, hid⟩
          · rw [spawnLoop] at hit ⊢
            simp only [h1, if_true, hing, hoc, h3, if_false] at hit ⊢
            exact ih k it hit
    · rw [spawnLoop] at hit ⊢
      simp only [h1, if_false] at hit ⊢
      exact ih k it hit

/-! ## Lemmas about item movement -/

/-- The movement loop rebuilds the item list in order, applying the
per-item update; arrivals leave the entry untouched. -/
theorem moveFold_items (sqrtFn : ℚ → ℚ) (dt : ℚ) (conns : List Connection) :
    ∀ (items : List GameItem) (acc : MoveAcc),
    (items.foldl (moveStep sqrtFn dt conns) acc).items =
      acc.items ++ items.map (moveItemKeep sqrtFn dt conns) := by
  intro items
  induction items with
  | nil => intro acc; simp
  | cons it rest ih =>
    intro acc
    rw [List.foldl_cons, List.map_cons, ih]
    unfold moveStep moveItemKeep
    cases moveItemResult sqrtFn dt conns it <;> simp

/-- The cash accumulated by the movement loop is the incoming cash plus
the credits of the items that reach the sell sentinel. -/
theorem moveFold_cash (sqrtFn : ℚ → ℚ) (dt : ℚ) (conns : List Connection) :
    ∀ (items : List GameItem) (acc : MoveAcc),
    (items.foldl (moveStep sqrtFn dt conns) acc).cash =
      acc.cash + (items.map (sellCredit sqrtFn dt conns)).sum := by
  intro items
  induction items with
  | nil => intro acc; simp
  | cons it rest ih =>
    intro acc
    rw [List.foldl_cons, List.map_cons, List.sum_cons, ih]
    unfold moveStep sellCredit
    cases moveItemResult sqrtFn dt conns it <;> simp <;> ring

/-- The removal set collected by the movement loop is exactly the ids of
the items that reach the sell sentinel, in order. -/
theorem moveFold_removed (sqrtFn : ℚ → ℚ) (dt : ℚ) (conns : List Connection) :
    ∀ (items : List GameItem) (acc : MoveAcc),
    (items.foldl (moveStep sqrtFn dt conns) acc).removed =
      acc.removed ++
        (items.filter (arrivesAtSell sqrtFn dt conns)).map GameItem.id := by
  intro items
  induction items with
  | nil => intro acc; simp
  | cons it rest ih =>
    intro acc
    rw [List.foldl_cons, ih]
    unfold moveStep
    cases hres : moveItemResult sqrtFn dt conns it <;>
      simp [List.filter_cons, arrivesAtSell, hres]

/-- The modifier list after the movement loop is the fold of the arrival
pushes over the items, in order. -/
theorem moveFold_mods (sqrtFn : ℚ → ℚ) (dt : ℚ) (conns : List Connection) :
    ∀ (items : List GameItem) (acc : MoveAcc),
    (items.foldl (moveStep sqrtFn dt conns) acc).mods =
      items.foldl (applyArrival sqrtFn dt conns) acc.mods := by
  intro items
  induction items with
  | nil => intro acc; simp
  | cons it rest ih =>
    intro acc
    rw [List.foldl_cons, List.foldl_cons, ih]
    unfold moveStep applyArrival
    cases hres : moveItemResult sqrtFn dt conns it <;> simp [hres]

/-- When the movement branch keeps an item traveling, the updated entry
preserves every field except position and progress. -/
theorem moveItemResult_stay_fields (sqrtFn : ℚ → ℚ) (dt : ℚ)
    (conns : List Connection) (it it' : GameItem)
    (h : moveItemResult sqrtFn dt conns it = .stay it') :
    it'.id = it.id ∧ it'.connectionId = it.connectionId ∧
    it'.name = it.name ∧ it'.cashPerItem = it.cashPerItem ∧
    it'.type = it.type := by
  simp only [moveItemResult] at h
  split at h
  · cases h; exact ⟨rfl, rfl, rfl, rfl, rfl⟩
  · split at h
    · cases h; exact ⟨rfl, rfl, rfl, rfl, rfl⟩
    · split at h
      · split at h
        · split at h
          · split at h <;> simp at h
          · split at h
            · cases h; exact ⟨rfl, rfl, rfl, rfl, rfl⟩
            · cases h; exact ⟨rfl, rfl, rfl, rfl, rfl⟩
        · split at h
          · split at h <;> simp at h
          · split at h
            · cases h; exact ⟨rfl, rfl, rfl, rfl, rfl⟩
            · cases h; exact ⟨rfl, rfl, rfl, rfl, rfl⟩
      · cases h; exact ⟨rfl, rfl, rfl, rfl, rfl⟩

/-- When the movement branch keeps an item traveling, its progress never
decreases and never exceeds `max progress 1` (given a non-negative time
delta and square root). -/
theorem moveItemResult_stay_progress (sqrtFn : ℚ → ℚ) (dt : ℚ)
    (conns : List Connection) (it it' : GameItem)
    (hdt : 0 ≤ dt) (hf : ∀ x, 0 ≤ sqrtFn x)
    (h : moveItemResult sqrtFn dt conns it = .stay it') :
    it.progress ≤ it'.progress ∧ it'.progress ≤ max it.progress 1 := by
  simp only [moveItemResult] at h
  split at h
  · cases h; exact ⟨le_refl _, le_max_left _ _⟩
  · split at h
    · cases h; exact ⟨le_refl _, le_max_left _ _⟩
    · split at h
      · split at h
        · -- zero path length: `newProgress = 1`
          split at h
          · split at h <;> simp at h
          · rename_i hlt
            exact absurd (le_refl (1 : ℚ)) hlt
        · -- positive path length
          rename_i p0 p1 tl hpts hz
          split at h
          · split at h <;> simp at h
          · rename_i hlt
            have hpos : 0 < sqrtFn ((p1.x - p0.x) ^ 2 + (p1.y - p0.y) ^ 2) :=
              lt_of_le_of_ne (hf _) (Ne.symm hz)
            have hinc : 0 ≤ CONNECTION_SPEED * dt / 1000 /
                sqrtFn ((p1.x - p0.x) ^ 2 + (p1.y - p0.y) ^ 2) :=
              div_nonneg (div_nonneg
                (mul_nonneg (by norm_num [CONNECTION_SPEED]) hdt)
                (by norm_num)) hpos.le
            have hmin1 : min (it.progress + CONNECTION_SPEED * dt / 1000 /
                sqrtFn ((p1.x - p0.x) ^ 2 + (p1.y - p0.y) ^ 2)) 1 < 1 :=
              lt_of_not_le hlt
            have hsum : it.progress + CONNECTION_SPEED * dt / 1000 /
                sqrtFn ((p1.x - p0.x) ^ 2 + (p1.y - p0.y) ^ 2) < 1 := by
              by_contra hge
              push_neg at hge
              rw [min_eq_right hge] at hmin1
              exact absurd hmin1 (lt_irrefl 1)
            have hmin : min (it.progress + CONNECTION_SPEED * dt / 1000 /
                sqrtFn ((p1.x - p0.x) ^ 2 + (p1.y - p0.y) ^ 2)) 1 =
                it.progress + CONNECTION_SPEED * dt / 1000 /
                  sqrtFn ((p1.x - p0.x) ^ 2 + (p1.y - p0.y) ^ 2) :=
              min_eq_left hsum.le
            split at h
            · cases h
              constructor
              · simp only [hmin]
                linarith
              · simp only [hmin]
                exact le_trans hsum.le (le_max_right _ _)
            · cases h; exact ⟨le_refl _, le_max_left _ _⟩
      · cases h; exact ⟨le_refl _, le_max_left _ _⟩

/-- The per-item movement update preserves id, connection, name, cash
value and type. -/
theorem moveItemKeep_fields (sqrtFn : ℚ → ℚ) (dt : ℚ)
    (conns : List Connection) (it : GameItem) :
    (moveItemKeep sqrtFn dt conns it).id = it.id ∧
    (moveItemKeep sqrtFn dt conns it).connectionId = it.connectionId ∧
    (moveItemKeep sqrtFn dt conns it).name = it.name ∧
    (moveItemKeep sqrtFn dt conns it).cashPerItem = it.cashPerItem ∧
    (moveItemKeep sqrtFn dt conns it).type = it.type := by
  unfold moveItemKeep
  cases hres : moveItemResult sqrtFn dt conns it with
  | stay it' => exact moveItemResult_stay_fields sqrtFn dt conns it it' hres
  | sell => exact ⟨rfl, rfl, rfl, rfl, rfl⟩
  | toMod d => exact ⟨rfl, rfl, rfl, rfl, rfl⟩

/-- The per-item movement update never decreases progress and never
exceeds `max progress 1`. -/
theorem moveItemKeep_progress (sqrtFn : ℚ → ℚ) (dt : ℚ)
    (conns : List Connection) (it : GameItem)
    (hdt : 0 ≤ dt) (hf : ∀ x, 0 ≤ sqrtFn x) :
    it.progress ≤ (moveItemKeep sqrtFn dt conns it).progress ∧
    (moveItemKeep sqrtFn dt conns it).progress ≤ max it.progress 1 := by
  unfold moveItemKeep
  cases hres : moveItemResult sqrtFn dt conns it with
  | stay it' => exact moveItemResult_stay_progress sqrtFn dt conns it it' hdt hf hres
  | sell => exact ⟨le_refl _, le_max_left _ _⟩
  | toMod d => exact ⟨le_refl _, le_max_left _ _⟩

/-! ## Zero-length and positive-length paths (claim C9) -/

/-- C9: in the tick engine's movement branch, an item whose connection
has a zero-length path (coincident endpoints) is treated as arriving
instantaneously — the computed progress reaches 1 on that tick (in the
source, the progress increment divides by a zero distance, producing
`Infinity`, and `Math.min(progress + Infinity, 1) = 1`), so the item
takes the normal arrival transition for the connection's destination
instead of failing or staying stuck; while on a positive-length path the
progress advances to `min(progress + speed·Δt/1000 / pathLength, 1)`,
arriving exactly when that clamped value reaches 1. -/
theorem zero_length_path_instantaneous (sqrtFn : ℚ → ℚ) (dt : ℚ)
    (conns : List Connection) (it : GameItem) (cid : String)
    (conn : Connection)
    (hf0 : sqrtFn 0 = 0) (hcid : it.connectionId = some cid)
    (hfind : conns.find? (fun c => c.id == cid) = some conn) :
    (∀ p tl, conn.points = p :: p :: tl →
      moveItemResult sqrtFn dt conns it =
        (match conn.toType with
         | .sell => .sell
         | .modifier => .toMod conn.toId)) ∧
    (∀ p0 p1 tl, conn.points = p0 :: p1 :: tl →
      sqrtFn ((p1.x - p0.x) ^ 2 + (p1.y - p0.y) ^ 2) ≠ 0 →
      ((1 ≤ min (it.progress + CONNECTION_SPEED * dt / 1000 /
            sqrtFn ((p1.x - p0.x) ^ 2 + (p1.y - p0.y) ^ 2)) 1 →
        moveItemResult sqrtFn dt conns it =
          (match conn.toType with
           | .sell => .sell
           | .modifier => .toMod conn.toId)) ∧
       (min (it.progress + CONNECTION_SPEED * dt / 1000 /
            sqrtFn ((p1.x - p0.x) ^ 2 + (p1.y - p0.y) ^ 2)) 1 < 1 →
        ∃ it', moveItemResult sqrtFn dt conns it = .stay it' ∧
          it'.progress = min (it.progress + CONNECTION_SPEED * dt / 1000 /
            sqrtFn ((p1.x - p0.x) ^ 2 + (p1.y - p0.y) ^ 2)) 1))) := by
  constructor
  · intro p tl hpts
    simp only [moveItemResult, hcid, hfind, hpts]
    have hz : (p.x - p.x) ^ 2 + (p.y - p.y) ^ 2 = 0 := by ring
    rw [hz, hf0]
    simp
  · intro p0 p1 tl hpts hz
    constructor
    · intro h1
      simp only [moveItemResult, hcid, hfind, hpts]
      rw [if_neg hz, if_pos h1]
    · intro hlt
      simp only [moveItemResult, hcid, hfind, hpts]
      rw [if_neg hz, if_neg (not_le.mpr hlt)]
      by_cases hcond : 1/10 < |p0.x + (p1.x - p0.x) *
          min (it.progress + CONNECTION_SPEED * dt / 1000 /
            sqrtFn ((p1.x - p0.x) ^ 2 + (p1.y - p0.y) ^ 2)) 1 - it.x| ∨
          1/10 < |p0.y + (p1.y - p0.y) *
          min (it.progress + CONNECTION_SPEED * dt / 1000 /
            sqrtFn ((p1.x - p0.x) ^ 2 + (p1.y - p0.y) ^ 2)) 1 - it.y| ∨
          min (it.progress + CONNECTION_SPEED * dt / 1000 /
            sqrtFn ((p1.x - p0.x) ^ 2 + (p1.y - p0.y) ^ 2)) 1 ≠ it.progress
      · rw [if_pos hcond]
        exact ⟨_, rfl, rfl⟩
      · rw [if_neg hcond]
        refine ⟨it, rfl, ?_⟩
        push_neg at hcond
        exact hcond.2.2.symm

/-- Witness for `zero_length_path_instantaneous`: a concrete item on a
connection whose two endpoints coincide arrives instantaneously (here
the destination is the sell sentinel), with the real square root
modelled by `Rat.sqrt`. -/
theorem zero_length_path_witness :
    moveItemResult Rat.sqrt 100
      [{ id := "c1", fromId := "s1", toId := "sell",
         fromType := .spawner, toType := .sell,
         points := [{ x := 3, y := 4 }, { x := 3, y := 4 }], speed := 80 }]
      { id := "i1", name := "Water", emoji := "w", cashPerItem := 15,
        type := .Ingredient, x := 3, y := 4, vx := 0, vy := 0,
        progress := 0, connectionId := some "c1" } = .sell :=
  (zero_length_path_instantaneous Rat.sqrt 100
    [{ id := "c1", fromId := "s1", toId := "sell",
       fromType := .spawner, toType := .sell,
       points := [{ x := 3, y := 4 }, { x := 3, y := 4 }], speed := 80 }]
    { id := "i1", name := "Water", emoji := "w", cashPerItem := 15,
      type := .Ingredient, x := 3, y := 4, vx := 0, vy := 0,
      progress := 0, connectionId := some "c1" }
    "c1"
    { id := "c1", fromId := "s1", toId := "sell",
      fromType := .spawner, toType := .sell,
      points := [{ x := 3, y := 4 }, { x := 3, y := 4 }], speed := 80 }
    (by decide) rfl (by decide)).1 { x := 3, y := 4 } [] rfl

/-! ## Lemmas about arrival pushes and modifier processing -/

/-- `pushInput` either leaves the list untouched (no modifier with the
destination id) or rewrites exactly the first matching modifier,
appending the id to its inputs unless already present. -/
theorem pushInput_shape (d i : String) : ∀ ms : List GameModifier,
    (pushInput d i ms = ms ∧ ms.find? (fun m => m.id == d) = none) ∨
    ∃ pre m post, ms = pre ++ m :: post ∧
      (∀ m' ∈ pre, (m'.id == d) = false) ∧ (m.id == d) = true ∧
      pushInput d i ms = pre ++
        (if i ∈ m.inputs then m
         else { m with inputs := m.inputs ++ [i] }) :: post := by
  intro ms
  induction ms with
  | nil => exact Or.inl ⟨rfl, rfl⟩
  | cons m rest ih =>
    by_cases hid : (m.id == d) = true
    · refine Or.inr ⟨[], m, rest, by simp, by simp, hid, ?_⟩
      simp [pushInput, hid]
    · rcases ih with ⟨heq, hfind⟩ | ⟨pre, m0, post, heq, hpre, hm0, hpush⟩
      · refine Or.inl ⟨?_, ?_⟩
        · simp [pushInput, hid, heq]
        · simp [List.find?, Bool.of_not_eq_true hid, hfind]
      · refine Or.inr ⟨m :: pre, m0, post, by simp [heq], ?_, hm0, ?_⟩
        · intro m' hm'
          rcases List.mem_cons.mp hm' with h | h
          · subst h; exact Bool.of_not_eq_true hid
          · exact hpre m' h
        · simp [pushInput, hid, hpush]

/-- Every modifier after a push is either an original modifier or an
original with one id appended to its inputs. -/
theorem pushInput_mem (d i : String) (ms : List GameModifier) :
    ∀ m' ∈ pushInput d i ms, m' ∈ ms ∨
      ∃ m ∈ ms, i ∉ m.inputs ∧ m' = { m with inputs := m.inputs ++ [i] } := by
  intro m' hm'
  rcases pushInput_shape d i ms with ⟨heq, _⟩ | ⟨pre, m, post, heq, _, _, hpush⟩
  · rw [heq] at hm'
    exact Or.inl hm'
  · rw [hpush] at hm'
    rcases List.mem_append.mp hm' with h | h
    · exact Or.inl (heq ▸ List.mem_append_left _ h)
    · rcases List.mem_cons.mp h with h | h
      · by_cases hi : i ∈ m.inputs
        · rw [if_pos hi] at h
          exact Or.inl (heq ▸ List.mem_append_right _ (h ▸ List.mem_cons_self _ _))
        · rw [if_neg hi] at h
          exact Or.inr ⟨m, heq ▸ List.mem_append_right _ (List.mem_cons_self _ _), hi, h⟩
      · exact Or.inl (heq ▸ List.mem_append_right _ (List.mem_cons_of_mem _ h))

/-- Arrival pushes keep every pending-input list free of duplicates. -/
theorem pushInput_nodup (d i : String) (ms : List GameModifier)
    (h : ∀ m ∈ ms, m.inputs.Nodup) :
    ∀ m' ∈ pushInput d i ms, m'.inputs.Nodup := by
  intro m' hm'
  rcases pushInput_mem d i ms m' hm' with h' | ⟨m, hm, hi, heq⟩
  · exact h m' h'
  · subst heq
    simp only [List.nodup_append]
    exact ⟨h m hm, List.nodup_singleton i, by
      intro a ha hmem
      rcases List.mem_singleton.mp hmem with rfl
      exact hi ha⟩

/-- Arrival pushes change only the `inputs` field: timers, identity and
geometry of every modifier are unchanged positionally. -/
theorem pushInput_fields (d i : String) : ∀ (ms : List GameModifier) (n : ℕ),
    ((pushInput d i ms).get? n).map
        (fun m => (m.id, m.lastProcess, m.processInterval)) =
      (ms.get? n).map (fun m => (m.id, m.lastProcess, m.processInterval)) := by
  intro ms
  induction ms with
  | nil => intro n; rfl
  | cons m rest ih =>
    intro n
    by_cases hid : (m.id == d) = true
    · cases n with
      | zero =>
        by_cases hi : i ∈ m.inputs <;> simp [pushInput, hid, hi]
      | succ n => simp [pushInput, hid]
    · cases n with
      | zero => simp [pushInput, hid]
      | succ n => simpa [pushInput, hid] using ih n

/-- The items after one `processCombination`: either unchanged, or the
incoming items followed by exactly one fresh output item (progress `0`,
id drawn at the current counter), with the counter advanced accordingly. -/
theorem processCombination_shape (uuid : ℕ → String)
    (gen : List String → String → GPTResponse) (inputItems : List GameItem)
    (m : GameModifier) (conns : List Connection) (items : List GameItem)
    (combos : List (String × GPTResponse)) (k : ℕ) :
    (∃ x, (processCombination uuid gen inputItems m conns items combos k).2.1 =
        items ++ [x] ∧ x.progress = 0 ∧ x.id = uuid k ∧
      (processCombination uuid gen inputItems m conns items combos k).2.2 = k + 1) ∨
    ((processCombination uuid gen inputItems m conns items combos k).2.1 = items ∧
      (processCombination uuid gen inputItems m conns items combos k).2.2 = k) := by
  cases hfind : conns.find? (fun c => c.fromId == m.id &&
      c.fromType == FromType.modifier) with
  | none =>
    refine Or.inr ⟨?_, ?_⟩ <;> simp [processCombination, hfind]
  | some oc =>
    cases hpts : oc.points with
    | nil =>
      refine Or.inr ⟨?_, ?_⟩ <;> simp [processCombination, hfind, hpts]
    | cons p0 tl =>
      cases hlook : comboLookup combos
          (getCachedCombo (inputItems.map (fun it => it.name)) m.name) with
      | some r =>
        refine Or.inl ⟨mkOutputItem (uuid k) r oc p0, ?_, rfl, rfl, ?_⟩ <;>
          simp [processCombination, hfind, hpts, hlook]
      | none =>
        refine Or.inl ⟨mkOutputItem (uuid k)
          (gen (inputItems.map (fun it => it.name)) m.name) oc p0,
          ?_, rfl, rfl, ?_⟩ <;>
          simp [processCombination, hfind, hpts, hlook]

/-- When no modifier is due for processing, the processing section is the
identity on modifiers, items, cache and counter. -/
theorem processLoop_no_process (uuid : ℕ → String)
    (gen : List String → String → GPTResponse) (now : ℚ)
    (conns : List Connection) :
    ∀ (ms : List GameModifier) (items : List GameItem)
      (combos : List (String × GPTResponse)) (k : ℕ),
    (∀ m ∈ ms, ¬ (0 < m.inputs.length ∧ m.processInterval ≤ now - m.lastProcess)) →
    processLoop uuid gen now conns ms items combos k = (ms, items, combos, k) := by
  intro ms
  induction ms with
  | nil => intro items combos k _; rfl
  | cons m rest ih =>
    intro items combos k h
    rw [processLoop, if_neg (h m (List.mem_cons_self _ _)),
      ih items combos k (fun m' hm' => h m' (List.mem_cons_of_mem _ hm'))]

/-- Every item surviving the processing section is either an incoming
item or a freshly created output item (progress `0`, uuid-drawn id at an
index at least the incoming counter). -/
theorem processLoop_items_mem (uuid : ℕ → String)
    (gen : List String → String → GPTResponse) (now : ℚ)
    (conns : List Connection) :
    ∀ (ms : List GameModifier) (items : List GameItem)
      (combos : List (String × GPTResponse)) (k : ℕ),
    ∀ it' ∈ (processLoop uuid gen now conns ms items combos k).2.1,
      it' ∈ items ∨ (it'.progress = 0 ∧ ∃ j, k ≤ j ∧ it'.id = uuid j) := by
  intro ms
  induction ms with
  | nil => intro items combos k it' h; exact Or.inl h
  | cons m rest ih =>
    intro items combos k it' h
    simp only [processLoop] at h
    split at h
    · split at h
      · -- a processing step ran
        rcases ih _ _ _ it' h with hmem | hnew
        · have hx := List.mem_of_mem_filter hmem
          rcases processCombination_shape uuid gen
              (m.inputs.filterMap (fun iid => items.find? (fun it => it.id == iid)))
              m conns items combos k with ⟨x, hxeq, hxp, hxid, _⟩ | ⟨heq, _⟩
          · rw [hxeq] at hx
            rcases List.mem_append.mp hx with h' | h'
            · exact Or.inl h'
            · rcases List.mem_singleton.mp h' with rfl
              exact Or.inr ⟨hxp, k, le_refl k, hxid⟩
          · rw [heq] at hx
            exact Or.inl hx
        · obtain ⟨hp, j, hj, hid⟩ := hnew
          rcases processCombination_shape uuid gen
              (m.inputs.filterMap (fun iid => items.find? (fun it => it.id == iid)))
              m conns items combos k with ⟨x, _, _, _, hk⟩ | ⟨_, hk⟩
          · exact Or.inr ⟨hp, j, by omega, hid⟩
          · exact Or.inr ⟨hp, j, by omega, hid⟩
      · exact ih _ _ _ it' h
    · exact ih _ _ _ it' h

/-- The uuid counter never decreases through the processing section. -/
theorem processLoop_counter_le (uuid : ℕ → String)
    (gen : List String → String → GPTResponse) (now : ℚ)
    (conns : List Connection) :
    ∀ (ms : List GameModifier) (items : List GameItem)
      (combos : List (String × GPTResponse)) (k : ℕ),
    k ≤ (processLoop uuid gen now conns ms items combos k).2.2.2 := by
  intro ms
  induction ms with
  | nil => intro items combos k; exact le_refl k
  | cons m rest ih =>
    intro items combos k
    simp only [processLoop]
    split
    · split
      · rcases processCombination_shape uuid gen
            (m.inputs.filterMap (fun iid => items.find? (fun it => it.id == iid)))
            m conns items combos k with ⟨x, _, _, _, hk⟩ | ⟨_, hk⟩
        · rw [hk] at *
          exact le_trans (by omega) (ih _ _ (k + 1))
        · rw [hk] at *
          exact ih _ _ k
      · exact ih _ _ k
    · exact ih _ _ k

/-- An id that names no incoming item and that the uuid oracle cannot
produce at any index at least the incoming counter names no item after
the processing section either. -/
theorem processLoop_item_absent (uuid : ℕ → String)
    (gen : List String → String → GPTResponse) (now : ℚ)
    (conns : List Connection) (iid : String) :
    ∀ (ms : List GameModifier) (items : List GameItem)
      (combos : List (String × GPTResponse)) (k : ℕ),
    (∀ j, k ≤ j → uuid j ≠ iid) →
    (∀ it ∈ items, it.id ≠ iid) →
    ∀ it' ∈ (processLoop uuid gen now conns ms items combos k).2.1,
      it'.id ≠ iid := by
  intro ms items combos k hj habs it' h
  rcases processLoop_items_mem uuid gen now conns ms items combos k it' h with
    hmem | ⟨_, j, hjk, hid⟩
  · exact habs it' hmem
  · rw [hid]
    exact hj j hjk

/-- Every modifier after the processing section is an original modifier
or one whose pending inputs were cleared. -/
theorem processLoop_mods_mem (uuid : ℕ → String)
    (gen : List String → String → GPTResponse) (now : ℚ)
    (conns : List Connection) :
    ∀ (ms : List GameModifier) (items : List GameItem)
      (combos : List (String × GPTResponse)) (k : ℕ),
    ∀ m' ∈ (processLoop uuid gen now conns ms items combos k).1,
      m' ∈ ms ∨ m'.inputs = [] := by
  intro ms
  induction ms with
  | nil => intro items combos k m' h; exact absurd h (by simp [processLoop])
  | cons m rest ih =>
    intro items combos k m' h
    simp only [processLoop] at h
    split at h
    · split at h
      · rcases List.mem_cons.mp h with heq | htail
        · subst heq; exact Or.inr rfl
        · rcases ih _ _ _ m' htail with h' | h'
          · exact Or.inl (List.mem_cons_of_mem _ h')
          · exact Or.inr h'
      · rcases List.mem_cons.mp h with heq | htail
        · subst heq; exact Or.inl (List.mem_cons_self _ _)
        · rcases ih _ _ _ m' htail with h' | h'
          · exact Or.inl (List.mem_cons_of_mem _ h')
          · exact Or.inr h'
    · rcases List.mem_cons.mp h with heq | htail
      · subst heq; exact Or.inl (List.mem_cons_self _ _)
      · rcases ih _ _ _ m' htail with h' | h'
        · exact Or.inl (List.mem_cons_of_mem _ h')
        · exact Or.inr h'

/-- The cash-per-minute update touches only the rate and the history:
items, spawners, connections, modifiers, the cash total and the cache
are unchanged. -/
theorem updateCashPerMinute_frame (st : GameState) (now : ℚ) :
    (updateCashPerMinute st now).items = st.items ∧
    (updateCashPerMinute st now).spawners = st.spawners ∧
    (updateCashPerMinute st now).connections = st.connections ∧
    (updateCashPerMinute st now).modifiers = st.modifiers ∧
    (updateCashPerMinute st now).totalCash = st.totalCash ∧
    (updateCashPerMinute st now).discoveredCombos = st.discoveredCombos := by
  simp only [updateCashPerMinute]
  split
  · split
    · exact ⟨rfl, rfl, rfl, rfl, rfl, rfl⟩
    · exact ⟨rfl, rfl, rfl, rfl, rfl, rfl⟩
  · exact ⟨rfl, rfl, rfl, rfl, rfl, rfl⟩

/-! ## Tick-level structure lemmas -/

/-- `gameLoop` at time `now`, case-split on the two frame-budget guards:
the state update runs exactly when `tickRuns` holds; when only the outer
guard passes, just the frame timestamp advances; below the frame budget
nothing changes. -/
theorem tick_eq (sqrtFn : ℚ → ℚ) (uuid : ℕ → String)
    (gen : List String → String → GPTResponse) (est : EngineState) (now : ℚ) :
    tick sqrtFn uuid gen est now =
      if tickRuns est now = true then
        { game := updateGame sqrtFn uuid gen est.game now
            (now - est.lastFrameTime),
          lastFrameTime := now, lastUpdateTime := now }
      else if FRAME_TIME ≤ now - est.lastFrameTime then
        { est with lastFrameTime := now }
      else est := by
  simp only [tick, tickRuns]
  by_cases h1 : now - est.lastFrameTime < FRAME_TIME
  · have h1' : ¬ FRAME_TIME ≤ now - est.lastFrameTime := not_le.mpr h1
    simp [h1, h1']
  · push_neg at h1
    by_cases h2 : FRAME_TIME < now - est.lastUpdateTime
    · simp [not_lt.mpr h1, h1, h2]
    · simp [not_lt.mpr h1, h1, h2]

/-- The components of the updated game state, spelled out: recomputed
connections, spawner updates and spawned items, the movement fold, the
sell filter, and the processing fold; the cash-per-minute step touches
none of these. -/
theorem updateGame_parts (sqrtFn : ℚ → ℚ) (uuid : ℕ → String)
    (gen : List String → String → GPTResponse)
    (st : GameState) (now dt : ℚ) :
    ∀ conns spawned moved items2 processed,
      conns = recomputeConnections st →
      spawned = spawnLoop uuid now conns st.spawners 0 →
      moved = moveLoop sqrtFn dt conns (st.items ++ spawned.2.1)
        st.modifiers st.totalCash →
      items2 = (if moved.removed ≠ [] then
        moved.items.filter (fun it => it.id ∉ moved.removed)
        else moved.items) →
      processed = processLoop uuid gen now conns moved.mods items2
        st.discoveredCombos spawned.2.2 →
      (updateGame sqrtFn uuid gen st now dt).items = processed.2.1 ∧
      (updateGame sqrtFn uuid gen st now dt).totalCash = moved.cash ∧
      (updateGame sqrtFn uuid gen st now dt).spawners = spawned.1 ∧
      (updateGame sqrtFn uuid gen st now dt).modifiers = processed.1 ∧
      (updateGame sqrtFn uuid gen st now dt).connections = conns ∧
      (updateGame sqrtFn uuid gen st now dt).discoveredCombos =
        processed.2.2.1 := by
  intro conns spawned moved items2 processed hc hs hm hi hp
  subst hc hs hm hi hp
  simp only [updateGame]
  split
  · obtain ⟨h1, h2, h3, h4, h5, h6⟩ := updateCashPerMinute_frame _ now
    exact ⟨h1, by rw [h5], h2, h4, h3, h6⟩
  · exact ⟨rfl, rfl, rfl, rfl, rfl, rfl⟩

/-! ## Progress invariants (claim C2) -/

/-- The id oracle used in concrete evaluations is injective. -/
theorem sampleUuid_injective : Function.Injective sampleUuid := by
  intro a b h
  have hlen := congrArg (fun s => s.data.length) h
  simpa [sampleUuid] using hlen

/-- C2: across a tick, every item's progress stays within `[0, 1]`;
every surviving item keeps its connection and its progress never
decreases (so progress is monotonically non-decreasing across successive
ticks while the item stays on its connection); and every item first
placed onto a connection — by a spawner emission or by resolver output —
is created with progress `0`. -/
theorem progress_invariant (sqrtFn : ℚ → ℚ) (uuid : ℕ → String)
    (gen : List String → String → GPTResponse) (est : EngineState) (now : ℚ)
    (hf : ∀ x, 0 ≤ sqrtFn x)
    (hrange : ∀ it ∈ est.game.items, 0 ≤ it.progress ∧ it.progress ≤ 1)
    (hnodup : (est.game.items.map GameItem.id).Nodup)
    (hfresh : ∀ (j : ℕ), ∀ it ∈ est.game.items, uuid j ≠ it.id) :
    (∀ it' ∈ (tick sqrtFn uuid gen est now).game.items,
       0 ≤ it'.progress ∧ it'.progress ≤ 1) ∧
    (∀ it ∈ est.game.items, ∀ it' ∈ (tick sqrtFn uuid gen est now).game.items,
       it'.id = it.id →
       it'.connectionId = it.connectionId ∧ it.progress ≤ it'.progress) ∧
    (∀ sp ∈ (spawnLoop uuid now (recomputeConnections est.game)
        est.game.spawners 0).2.1, sp.progress = 0) ∧
    (∀ inputItems m conns items combos k,
       ∀ x ∈ (processCombination uuid gen inputItems m conns items combos k).2.1,
         x ∉ items → x.progress = 0) := by
  have hspawn0 : ∀ sp ∈ (spawnLoop uuid now (recomputeConnections est.game)
      est.game.spawners 0).2.1, sp.progress = 0 := fun sp hsp =>
    (spawnLoop_items_mem uuid now _ est.game.spawners 0 sp hsp).1
  have hproc0 : ∀ inputItems m conns items combos k,
      ∀ x ∈ (processCombination uuid gen inputItems m conns items combos k).2.1,
        x ∉ items → x.progress = 0 := by
    intro inputItems m conns items combos k x hx hnot
    rcases processCombination_shape uuid gen inputItems m conns items combos k with
      ⟨y, heq, hyp, _, _⟩ | ⟨heq, _⟩
    · rw [heq] at hx
      rcases List.mem_append.mp hx with h | h
      · exact absurd h hnot
      · rcases List.mem_singleton.mp h with rfl
        exact hyp
    · rw [heq] at hx
      exact absurd hx hnot
  rw [tick_eq]
  by_cases hrun : tickRuns est now = true
  · rw [if_pos hrun]
    have hrun' := hrun
    simp only [tickRuns, Bool.and_eq_true, decide_eq_true_eq] at hrun'
    have hdt : 0 ≤ now - est.lastFrameTime :=
      le_trans (by norm_num [FRAME_TIME]) hrun'.1
    obtain ⟨hitems, hcashval, hspawners, hmods, hconnsv, hcombosv⟩ :=
      updateGame_parts sqrtFn uuid gen est.game now (now - est.lastFrameTime)
        _ _ _ _ _ rfl rfl rfl rfl rfl
    set conns := recomputeConnections est.game
    set dt := now - est.lastFrameTime
    set spawned := spawnLoop uuid now conns est.game.spawners 0 with hspawned_def
    set items0 := est.game.items ++ spawned.2.1 with hitems0_def
    set moved := moveLoop sqrtFn dt conns items0 est.game.modifiers
      est.game.totalCash with hmoved_def
    set items2 := (if moved.removed ≠ [] then
      moved.items.filter (fun it => it.id ∉ moved.removed)
      else moved.items) with hitems2_def
    have hmoveditems : moved.items = items0.map (moveItemKeep sqrtFn dt conns) := by
      rw [hmoved_def]
      simp only [moveLoop]
      rw [moveFold_items]
      simp
    have hitems2sub : ∀ x ∈ items2, x ∈ moved.items := by
      rw [hitems2_def]
      split
      · intro x hx
        exact List.mem_of_mem_filter hx
      · intro x hx
        exact hx
    refine ⟨?_, ?_, hspawn0, hproc0⟩
    · intro it' hit'
      have hit2 : it' ∈ (processLoop uuid gen now conns moved.mods items2
          est.game.discoveredCombos spawned.2.2).2.1 := by
        rw [← hitems]
        exact hit'
      rcases processLoop_items_mem uuid gen now conns moved.mods items2
          est.game.discoveredCombos spawned.2.2 it' hit2 with hmem | ⟨hp, _, _, _⟩
      · have hmm := hitems2sub it' hmem
        rw [hmoveditems] at hmm
        rcases List.mem_map.mp hmm with ⟨it0, hit0, heq⟩
        have hp0 : 0 ≤ it0.progress ∧ it0.progress ≤ 1 := by
          rcases List.mem_append.mp hit0 with h0 | h0
          · exact hrange it0 h0
          · have := (spawnLoop_items_mem uuid now conns est.game.spawners 0
              it0 h0).1
            rw [this]
            norm_num
        obtain ⟨hmono, hmax⟩ := moveItemKeep_progress sqrtFn dt conns it0 hdt hf
        rw [heq] at hmono hmax
        constructor
        · exact le_trans hp0.1 hmono
        · exact le_trans hmax (max_le hp0.2 (le_refl 1))
      · rw [hp]
        norm_num
    · intro it hit it' hit' hid
      have hit2 : it' ∈ (processLoop uuid gen now conns moved.mods items2
          est.game.discoveredCombos spawned.2.2).2.1 := by
        rw [← hitems]
        exact hit'
      rcases processLoop_items_mem uuid gen now conns moved.mods items2
          est.game.discoveredCombos spawned.2.2 it' hit2 with
        hmem | ⟨_, j, _, hidj⟩
      · have hmm := hitems2sub it' hmem
        rw [hmoveditems] at hmm
        rcases List.mem_map.mp hmm with ⟨it0, hit0, heq⟩
        obtain ⟨hfid, hfconn, _, _, _⟩ := moveItemKeep_fields sqrtFn dt conns it0
        have hids : it0.id = it.id := by
          rw [← hfid, heq]
          exact hid
        rcases List.mem_append.mp hit0 with h0 | h0
        · have heq0 : it0 = it :=
            List.inj_on_of_nodup_map hnodup h0 hit hids
          subst heq0
          obtain ⟨hmono, _⟩ := moveItemKeep_progress sqrtFn dt conns it0 hdt hf
          rw [heq] at hmono hfconn
          exact ⟨hfconn, hmono⟩
        · obtain ⟨_, _, _, j0, _, hj0⟩ :=
            spawnLoop_items_mem uuid now conns est.game.spawners 0 it0 h0
          exfalso
          apply hfresh j0 it hit
          rw [← hj0]
          exact hids
      · exfalso
        apply hfresh j it hit
        rw [← hidj]
        exact hid
  · rw [if_neg hrun]
    have hbase2 : ∀ it ∈ est.game.items, ∀ it' ∈ est.game.items,
        it'.id = it.id →
        it'.connectionId = it.connectionId ∧ it.progress ≤ it'.progress := by
      intro it hit it' hit' hid
      have heq : it' = it := List.inj_on_of_nodup_map hnodup hit' hit hid
      subst heq
      exact ⟨rfl, le_refl _⟩
    split
    · exact ⟨hrange, hbase2, hspawn0, hproc0⟩
    · exact ⟨hrange, hbase2, hspawn0, hproc0⟩

/-- Witness for `progress_invariant` at a concrete engine state (the
empty initial state, `Rat.sqrt` as the square root, concrete id and
resolver oracles, tick time 100). -/
theorem progress_invariant_witness :
    (∀ x : ℚ, 0 ≤ Rat.sqrt x) ∧
    ((∀ it' ∈ (tick Rat.sqrt sampleUuid sampleGen emptyEngine 100).game.items,
        0 ≤ it'.progress ∧ it'.progress ≤ 1) ∧
     (∀ it ∈ emptyEngine.game.items,
        ∀ it' ∈ (tick Rat.sqrt sampleUuid sampleGen emptyEngine 100).game.items,
        it'.id = it.id →
        it'.connectionId = it.connectionId ∧ it.progress ≤ it'.progress) ∧
     (∀ sp ∈ (spawnLoop sampleUuid 100 (recomputeConnections emptyEngine.game)
         emptyEngine.game.spawners 0).2.1, sp.progress = 0) ∧
     (∀ inputItems m conns items combos k,
        ∀ x ∈ (processCombination sampleUuid sampleGen inputItems m conns items
            combos k).2.1, x ∉ items → x.progress = 0)) :=
  ⟨fun x => Rat.sqrt_nonneg x,
   progress_invariant Rat.sqrt sampleUuid sampleGen emptyEngine 100
     (fun x => Rat.sqrt_nonneg x)
     (by simp [emptyEngine, emptyGame])
     (by simp [emptyEngine, emptyGame])
     (by simp [emptyEngine, emptyGame])⟩

/-! ## Sell crediting and cash monotonicity (claim C3) -/

/-- C3: whenever traveling items reach the sell destination during a
tick, the running cash total increases by exactly the sum of those
items' `cashPerItem` values (for a single arrival, exactly that item's
value), and each sold item's id no longer names any item in the
post-tick collection; moreover, for states whose items carry
non-negative cash values, no engine-tick operation ever decreases the
cash total. -/
theorem sell_credits_cash (sqrtFn : ℚ → ℚ) (uuid : ℕ → String)
    (gen : List String → String → GPTResponse) (est : EngineState) (now : ℚ)
    (hcash : ∀ it ∈ est.game.items, 0 ≤ it.cashPerItem)
    (hfresh : ∀ (j : ℕ), ∀ it ∈ est.game.items, uuid j ≠ it.id)
    (hinj : Function.Injective uuid) :
    est.game.totalCash ≤ (tick sqrtFn uuid gen est now).game.totalCash ∧
    (tickRuns est now = true →
      (tick sqrtFn uuid gen est now).game.totalCash =
        est.game.totalCash +
          (((est.game.items ++ (spawnLoop uuid now
              (recomputeConnections est.game) est.game.spawners 0).2.1).map
            (sellCredit sqrtFn (now - est.lastFrameTime)
              (recomputeConnections est.game))).sum)) ∧
    (tickRuns est now = true →
      ∀ it ∈ est.game.items ++ (spawnLoop uuid now
          (recomputeConnections est.game) est.game.spawners 0).2.1,
        arrivesAtSell sqrtFn (now - est.lastFrameTime)
          (recomputeConnections est.game) it = true →
        ∀ it' ∈ (tick sqrtFn uuid gen est now).game.items,
          it'.id ≠ it.id) := by
  rw [tick_eq]
  by_cases hrun : tickRuns est now = true
  · rw [if_pos hrun]
    obtain ⟨hitems, hcashval, hspawners, hmods, hconnsv, hcombosv⟩ :=
      updateGame_parts sqrtFn uuid gen est.game now (now - est.lastFrameTime)
        _ _ _ _ _ rfl rfl rfl rfl rfl
    set conns := recomputeConnections est.game
    set dt := now - est.lastFrameTime
    set spawned := spawnLoop uuid now conns est.game.spawners 0 with hspawned_def
    set items0 := est.game.items ++ spawned.2.1 with hitems0_def
    set moved := moveLoop sqrtFn dt conns items0 est.game.modifiers
      est.game.totalCash with hmoved_def
    set items2 := (if moved.removed ≠ [] then
      moved.items.filter (fun it => it.id ∉ moved.removed)
      else moved.items) with hitems2_def
    have hmovedcash : moved.cash = est.game.totalCash +
        (items0.map (sellCredit sqrtFn dt conns)).sum := by
      rw [hmoved_def]
      simp only [moveLoop]
      rw [moveFold_cash]
    have hcash0 : ∀ it ∈ items0, 0 ≤ it.cashPerItem := by
      intro it hit
      rcases List.mem_append.mp hit with h | h
      · exact hcash it h
      · have := (spawnLoop_items_mem uuid now conns est.game.spawners 0 it h).2.1
        rw [this]
        norm_num
    have hsum : 0 ≤ (items0.map (sellCredit sqrtFn dt conns)).sum := by
      apply List.sum_nonneg
      intro x hx
      rcases List.mem_map.mp hx with ⟨it, hit, heq⟩
      subst heq
      unfold sellCredit
      split
      · exact hcash0 it hit
      · exact le_refl 0
    refine ⟨?_, fun _ => ?_, fun _ => ?_⟩
    · have : (updateGame sqrtFn uuid gen est.game now dt).totalCash =
          moved.cash := hcashval
      calc est.game.totalCash
          ≤ est.game.totalCash + (items0.map (sellCredit sqrtFn dt conns)).sum := by
            linarith
        _ = moved.cash := hmovedcash.symm
        _ = _ := hcashval.symm
    · show (updateGame sqrtFn uuid gen est.game now dt).totalCash =
        est.game.totalCash + ((items0.map (sellCredit sqrtFn dt conns)).sum)
      rw [hcashval, hmovedcash]
    · intro it hit hsell it' hit'
      have hremoved : moved.removed =
          (items0.filter (arrivesAtSell sqrtFn dt conns)).map GameItem.id := by
        rw [hmoved_def]
        simp only [moveLoop]
        rw [moveFold_removed]
        simp
      have hmem_removed : it.id ∈ moved.removed := by
        rw [hremoved]
        exact List.mem_map_of_mem _ (List.mem_filter.mpr ⟨hit, hsell⟩)
      have hnonempty : moved.removed ≠ [] :=
        List.ne_nil_of_mem hmem_removed
      have habs2 : ∀ x ∈ items2, x.id ≠ it.id := by
        rw [hitems2_def, if_pos hnonempty]
        intro x hx
        have := (List.mem_filter.mp hx).2
        have hnot := of_decide_eq_true this
        intro hxe
        rw [hxe] at hnot
        exact hnot hmem_removed
      have hjfresh : ∀ j, spawned.2.2 ≤ j → uuid j ≠ it.id := by
        intro j hj
        rcases List.mem_append.mp hit with h | h
        · exact hfresh j it h
        · obtain ⟨j0, _, hj0lt, hj0⟩ :=
            spawnLoop_items_id_lt uuid now conns est.game.spawners 0 it h
          rw [← hspawned_def] at hj0lt
          intro hje
          rw [hj0] at hje
          have : j = j0 := hinj hje
          omega
      have hit2 : it' ∈ (processLoop uuid gen now conns moved.mods items2
          est.game.discoveredCombos spawned.2.2).2.1 := by
        rw [← hitems]
        exact hit'
      exact processLoop_item_absent uuid gen now conns it.id moved.mods items2
        est.game.discoveredCombos spawned.2.2 hjfresh habs2 it' hit2
  · rw [if_neg hrun]
    refine ⟨?_, fun htr => absurd htr hrun, fun htr => absurd htr hrun⟩
    split
    · exact le_refl _
    · exact le_refl _

/-- Witness for `sell_credits_cash` at the concrete empty engine state:
the tick at time 100 does not decrease the cash total, credits exactly
the (empty) sum of sold items, and retains no sold id. -/
theorem sell_credits_cash_witness :
    emptyEngine.game.totalCash ≤
      (tick Rat.sqrt sampleUuid sampleGen emptyEngine 100).game.totalCash ∧
    (tickRuns emptyEngine 100 = true →
      (tick Rat.sqrt sampleUuid sampleGen emptyEngine 100).game.totalCash =
        emptyEngine.game.totalCash +
          (((emptyEngine.game.items ++ (spawnLoop sampleUuid 100
              (recomputeConnections emptyEngine.game)
              emptyEngine.game.spawners 0).2.1).map
            (sellCredit Rat.sqrt (100 - emptyEngine.lastFrameTime)
              (recomputeConnections emptyEngine.game))).sum)) ∧
    (tickRuns emptyEngine 100 = true →
      ∀ it ∈ emptyEngine.game.items ++ (spawnLoop sampleUuid 100
          (recomputeConnections emptyEngine.game)
          emptyEngine.game.spawners 0).2.1,
        arrivesAtSell Rat.sqrt (100 - emptyEngine.lastFrameTime)
          (recomputeConnections emptyEngine.game) it = true →
        ∀ it' ∈ (tick Rat.sqrt sampleUuid sampleGen emptyEngine 100).game.items,
          it'.id ≠ it.id) :=
  sell_credits_cash Rat.sqrt sampleUuid sampleGen emptyEngine 100
    (by simp [emptyEngine, emptyGame])
    (by simp [emptyEngine, emptyGame])
    sampleUuid_injective

/-! ## Pending-input bound (claim C8) -/

unseal Rat.add Rat.mul Rat.sub Rat.inv Nat.gcd in
/-- Counterexample to C8 as stated: four items arriving at one modifier
in a single tick, before a processing cycle completes, drive its
pending-input collection to four entries — the claimed bound of three is
not enforced on arrival. -/
theorem pending_inputs_unbounded_cex :
    ((tick Rat.sqrt sampleUuid sampleGen crowdedEngine 1000).game.modifiers.map
      (fun m => m.inputs)) = [["i1", "i2", "i3", "i4"]] ∧
    3 < ((tick Rat.sqrt sampleUuid sampleGen crowdedEngine
      1000).game.modifiers.headI.inputs.length) := by
  decide

/-- A push rewrites the first matching modifier's pending list to
"append unless present" and nothing else: the pending list of the first
modifier with the pushed destination id becomes `inputs ++ [i]` if `i`
was absent and stays `inputs` otherwise. -/
theorem pushInput_inputsOfFirst (d i : String) : ∀ ms : List GameModifier,
    inputsOfFirst (pushInput d i ms) d =
      (inputsOfFirst ms d).map (fun l => if i ∈ l then l else l ++ [i]) := by
  intro ms
  induction ms with
  | nil => rfl
  | cons m rest ih =>
    by_cases hmd : (m.id == d) = true
    · by_cases hi : i ∈ m.inputs
      · simp [pushInput, inputsOfFirst, List.find?, hmd, hi]
      · simp [pushInput, inputsOfFirst, List.find?, hmd, hi]
    · simp only [pushInput, Bool.not_eq_true] at hmd ⊢
      rw [if_neg (by simp [hmd])]
      simpa [inputsOfFirst, List.find?, hmd] using ih

/-- A push on one destination does not remove any id from the pending
list of the first modifier with any destination id. -/
theorem pushInput_first_mono (d' i' d j : String) : ∀ ms : List GameModifier,
    (∃ l, inputsOfFirst ms d = some l ∧ j ∈ l) →
    ∃ l', inputsOfFirst (pushInput d' i' ms) d = some l' ∧ j ∈ l' := by
  intro ms
  induction ms with
  | nil => intro ⟨l, hl, _⟩; exact absurd hl (by simp [inputsOfFirst])
  | cons m rest ih =>
    intro ⟨l, hl, hj⟩
    by_cases hmd' : (m.id == d') = true
    · by_cases hmd : (m.id == d) = true
      · have hlm : l = m.inputs := by
          simp [inputsOfFirst, List.find?, hmd] at hl
          exact hl.symm
        subst hlm
        by_cases hi : i' ∈ m.inputs
        · refine ⟨m.inputs, ?_, hj⟩
          simp [pushInput, inputsOfFirst, List.find?, hmd', hmd, hi]
        · refine ⟨m.inputs ++ [i'], ?_, List.mem_append_left _ hj⟩
          simp [pushInput, inputsOfFirst, List.find?, hmd', hmd, hi]
      · have hl' : inputsOfFirst rest d = some l := by
          simpa [inputsOfFirst, List.find?, hmd] using hl
        refine ⟨l, ?_, hj⟩
        by_cases hi : i' ∈ m.inputs
        · simpa [pushInput, inputsOfFirst, List.find?, hmd', hmd, hi] using hl'
        · simpa [pushInput, inputsOfFirst, List.find?, hmd', hmd, hi] using hl'
    · by_cases hmd : (m.id == d) = true
      · have hlm : l = m.inputs := by
          simp [inputsOfFirst, List.find?, hmd] at hl
          exact hl.symm
        subst hlm
        refine ⟨m.inputs, ?_, hj⟩
        simp [pushInput, inputsOfFirst, List.find?, hmd', hmd]
      · have hl' : inputsOfFirst rest d = some l := by
          simpa [inputsOfFirst, List.find?, hmd] using hl
        obtain ⟨l', hfind, hj'⟩ := ih ⟨l, hl', hj⟩
        refine ⟨l', ?_, hj'⟩
        simpa [pushInput, inputsOfFirst, List.find?, hmd', hmd] using hfind

/-- Pushing to a destination that has a matching modifier puts the
pushed id into the first matching modifier's pending list. -/
theorem pushInput_first_mem (d i : String) (ms : List GameModifier)
    (hsome : (ms.find? (fun m => m.id == d)).isSome = true) :
    ∃ l, inputsOfFirst (pushInput d i ms) d = some l ∧ i ∈ l := by
  rcases Option.isSome_iff_exists.mp hsome with ⟨m, hm⟩
  have hbase : inputsOfFirst ms d = some m.inputs := by
    simp [inputsOfFirst, hm]
  rw [pushInput_inputsOfFirst, hbase]
  by_cases hi : i ∈ m.inputs
  · exact ⟨m.inputs, by simp [hi], hi⟩
  · exact ⟨m.inputs ++ [i], by simp [hi],
      List.mem_append_right _ (List.mem_singleton_self i)⟩

/-- A push preserves every modifier's identity and timers (as the list
of triples). -/
theorem pushInput_triples (d i : String) : ∀ ms : List GameModifier,
    (pushInput d i ms).map (fun m => (m.id, m.lastProcess, m.processInterval)) =
      ms.map (fun m => (m.id, m.lastProcess, m.processInterval)) := by
  intro ms
  induction ms with
  | nil => rfl
  | cons m rest ih =>
    by_cases hmd : (m.id == d) = true
    · by_cases hi : i ∈ m.inputs <;> simp [pushInput, hmd, hi]
    · simp [pushInput, hmd, ih]

/-- The movement fold over the items preserves every modifier's identity
and timers. -/
theorem applyArrival_fold_triples (sqrtFn : ℚ → ℚ) (dt : ℚ)
    (conns : List Connection) : ∀ (items : List GameItem)
    (ms : List GameModifier),
    ((items.foldl (applyArrival sqrtFn dt conns) ms).map
        (fun m => (m.id, m.lastProcess, m.processInterval))) =
      ms.map (fun m => (m.id, m.lastProcess, m.processInterval)) := by
  intro items
  induction items with
  | nil => intro ms; rfl
  | cons it rest ih =>
    intro ms
    rw [List.foldl_cons, ih]
    unfold applyArrival
    cases moveItemResult sqrtFn dt conns it with
    | stay it' => rfl
    | sell => rfl
    | toMod destId => exact pushInput_triples destId it.id ms

/-- The movement fold never removes an id from the pending list of the
first modifier with a given id. -/
theorem applyArrival_fold_first_mono (sqrtFn : ℚ → ℚ) (dt : ℚ)
    (conns : List Connection) (d j : String) : ∀ (items : List GameItem)
    (ms : List GameModifier),
    (∃ l, inputsOfFirst ms d = some l ∧ j ∈ l) →
    ∃ l', inputsOfFirst (items.foldl (applyArrival sqrtFn dt conns) ms) d =
      some l' ∧ j ∈ l' := by
  intro items
  induction items with
  | nil => intro ms h; exact h
  | cons it rest ih =>
    intro ms h
    rw [List.foldl_cons]
    apply ih
    unfold applyArrival
    cases moveItemResult sqrtFn dt conns it with
    | stay it' => exact h
    | sell => exact h
    | toMod destId => exact pushInput_first_mono destId it.id d j ms h

/-- The movement fold preserves duplicate-freedom of every modifier's
pending inputs. -/
theorem applyArrival_fold_nodup (sqrtFn : ℚ → ℚ) (dt : ℚ)
    (conns : List Connection) : ∀ (items : List GameItem)
    (ms : List GameModifier),
    (∀ m ∈ ms, m.inputs.Nodup) →
    ∀ m' ∈ items.foldl (applyArrival sqrtFn dt conns) ms, m'.inputs.Nodup := by
  intro items
  induction items with
  | nil => intro ms h; exact h
  | cons it rest ih =>
    intro ms h
    rw [List.foldl_cons]
    apply ih
    unfold applyArrival
    cases moveItemResult sqrtFn dt conns it with
    | stay it' => exact h
    | sell => exact h
    | toMod destId => exact pushInput_nodup destId it.id ms h

/-- C8 (amended): the engine enforces no numeric bound on a modifier's
pending-input collection — four simultaneous arrivals drive it to four
entries (see the counterexample) — but the arrival path appends an id
only when it is absent, so across any tick every modifier's pending-input
collection remains free of duplicates, and a processed modifier's
collection is cleared. -/
theorem pending_inputs_nodup (sqrtFn : ℚ → ℚ) (uuid : ℕ → String)
    (gen : List String → String → GPTResponse) (est : EngineState) (now : ℚ)
    (h : ∀ m ∈ est.game.modifiers, m.inputs.Nodup) :
    ∀ m' ∈ (tick sqrtFn uuid gen est now).game.modifiers,
      m'.inputs.Nodup := by
  rw [tick_eq]
  by_cases hrun : tickRuns est now = true
  · rw [if_pos hrun]
    obtain ⟨hitems, hcashval, hspawners, hmods, hconnsv, hcombosv⟩ :=
      updateGame_parts sqrtFn uuid gen est.game now (now - est.lastFrameTime)
        _ _ _ _ _ rfl rfl rfl rfl rfl
    set conns := recomputeConnections est.game
    set dt := now - est.lastFrameTime
    set spawned := spawnLoop uuid now conns est.game.spawners 0 with hspawned_def
    set items0 := est.game.items ++ spawned.2.1 with hitems0_def
    set moved := moveLoop sqrtFn dt conns items0 est.game.modifiers
      est.game.totalCash with hmoved_def
    intro m' hm'
    have hm'2 : m' ∈ (processLoop uuid gen now conns moved.mods
        (if moved.removed ≠ [] then
          moved.items.filter (fun it => it.id ∉ moved.removed)
         else moved.items) est.game.discoveredCombos spawned.2.2).1 := by
      rw [← hmods]
      exact hm'
    rcases processLoop_mods_mem uuid gen now conns moved.mods _
        est.game.discoveredCombos spawned.2.2 m' hm'2 with hmem | hempty
    · have hmodsfold : moved.mods =
          items0.foldl (applyArrival sqrtFn dt conns) est.game.modifiers := by
        rw [hmoved_def]
        simp only [moveLoop]
        rw [moveFold_mods]
      rw [hmodsfold] at hmem
      exact applyArrival_fold_nodup sqrtFn dt conns items0
        est.game.modifiers h m' hmem
    · rw [hempty]
      exact List.nodup_nil
  · rw [if_neg hrun]
    split
    · exact h
    · exact h

/-- Witness for `pending_inputs_nodup` at the crowded fixture: all four
arrivals are distinct, so the four-entry pending list is duplicate-free. -/
theorem pending_inputs_nodup_witness :
    (∀ m ∈ crowdedEngine.game.modifiers, m.inputs.Nodup) ∧
    (∀ m' ∈ (tick Rat.sqrt sampleUuid sampleGen crowdedEngine
        1000).game.modifiers, m'.inputs.Nodup) :=
  ⟨by simp [crowdedEngine, cexModifier],
   pending_inputs_nodup Rat.sqrt sampleUuid sampleGen crowdedEngine 1000
     (by simp [crowdedEngine, cexModifier])⟩

/-! ## Arrival at a modifier (claim C7) -/

unseal Rat.add Rat.mul Rat.sub Rat.inv Nat.gcd in
/-- Counterexample to C7 as stated: a single item arriving at a modifier
is appended to the modifier's pending-input list, but it is NOT dropped
from the traveling item collection — after the tick the item is still in
`items` (it is consumed only later, by the modifier's processing step,
which looks the pending ids up in the item collection). -/
theorem arrival_retains_item_cex :
    ((tick Rat.sqrt sampleUuid sampleGen arrivalEngine 1000).game.modifiers.map
      (fun m => m.inputs)) = [["i1"]] ∧
    (tick Rat.sqrt sampleUuid sampleGen arrivalEngine
      1000).game.items.map GameItem.id = ["i1"] := by
  decide

/-- C7 (amended): when a traveling item's progress reaches 1 on a
connection whose destination is a modifier, the item's id is appended to
the pending-input list of the first modifier with that id unless it is
already present (the push is exactly "append unless present"); the item
is NOT dropped from the item collection at arrival — it remains there
(until the destination modifier's processing step later consumes it;
stated here for a tick in which no modifier is yet due for processing). -/
theorem arrival_appends_and_retains (sqrtFn : ℚ → ℚ) (uuid : ℕ → String)
    (gen : List String → String → GPTResponse) (est : EngineState)
    (now : ℚ) (it : GameItem) (destId : String)
    (hit : it ∈ est.game.items)
    (hnodup : (est.game.items.map GameItem.id).Nodup)
    (hfresh : ∀ (j : ℕ), ∀ x ∈ est.game.items, uuid j ≠ x.id)
    (harr : moveItemResult sqrtFn (now - est.lastFrameTime)
      (recomputeConnections est.game) it = .toMod destId)
    (hdest : ((est.game.modifiers.find? (fun m => m.id == destId)).isSome) = true)
    (hnoproc : ∀ m ∈ est.game.modifiers,
      ¬ m.processInterval ≤ now - m.lastProcess)
    (hrun : tickRuns est now = true) :
    (∃ l, inputsOfFirst (tick sqrtFn uuid gen est now).game.modifiers destId =
        some l ∧ it.id ∈ l) ∧
    it.id ∈ (tick sqrtFn uuid gen est now).game.items.map GameItem.id ∧
    (∀ d i ms, inputsOfFirst (pushInput d i ms) d =
      (inputsOfFirst ms d).map (fun l => if i ∈ l then l else l ++ [i])) := by
  rw [tick_eq, if_pos hrun]
  obtain ⟨hitems, hcashval, hspawners, hmods, hconnsv, hcombosv⟩ :=
    updateGame_parts sqrtFn uuid gen est.game now (now - est.lastFrameTime)
      _ _ _ _ _ rfl rfl rfl rfl rfl
  set conns := recomputeConnections est.game
  set dt := now - est.lastFrameTime
  set spawned := spawnLoop uuid now conns est.game.spawners 0 with hspawned_def
  set items0 := est.game.items ++ spawned.2.1 with hitems0_def
  set moved := moveLoop sqrtFn dt conns items0 est.game.modifiers
    est.game.totalCash with hmoved_def
  set items2 := (if moved.removed ≠ [] then
    moved.items.filter (fun it => it.id ∉ moved.removed)
    else moved.items) with hitems2_def
  have hmodsfold : moved.mods =
      items0.foldl (applyArrival sqrtFn dt conns) est.game.modifiers := by
    rw [hmoved_def]
    simp only [moveLoop]
    rw [moveFold_mods]
  have hmoveditems : moved.items = items0.map (moveItemKeep sqrtFn dt conns) := by
    rw [hmoved_def]
    simp only [moveLoop]
    rw [moveFold_items]
    simp
  have hremoved : moved.removed =
      (items0.filter (arrivesAtSell sqrtFn dt conns)).map GameItem.id := by
    rw [hmoved_def]
    simp only [moveLoop]
    rw [moveFold_removed]
    simp
  -- the destination modifier's pending list gains the id during the fold
  have hfirst : ∃ l, inputsOfFirst moved.mods destId = some l ∧ it.id ∈ l := by
    have hit0 : it ∈ items0 := List.mem_append_left _ hit
    obtain ⟨s, t, hst⟩ := List.append_of_mem hit0
    rw [hmodsfold, hst, List.foldl_append, List.foldl_cons]
    apply applyArrival_fold_first_mono
    have hstep : applyArrival sqrtFn dt conns
        (s.foldl (applyArrival sqrtFn dt conns) est.game.modifiers) it =
        pushInput destId it.id
          (s.foldl (applyArrival sqrtFn dt conns) est.game.modifiers) := by
      unfold applyArrival
      rw [harr]
    rw [hstep]
    apply pushInput_first_mem
    -- the fold preserves modifier ids, so the destination still exists
    have htr := applyArrival_fold_triples sqrtFn dt conns s est.game.modifiers
    have hids : (s.foldl (applyArrival sqrtFn dt conns)
        est.game.modifiers).map (fun m => m.id) =
        est.game.modifiers.map (fun m => m.id) := by
      have := congrArg (List.map (fun t : String × ℚ × ℚ => t.1)) htr
      simpa [List.map_map, Function.comp] using this
    rcases Option.isSome_iff_exists.mp hdest with ⟨m, hm⟩
    have hmmem := List.mem_of_find?_eq_some hm
    have hmid := List.find?_some hm
    apply List.find?_isSome.mpr
    have : m.id ∈ (s.foldl (applyArrival sqrtFn dt conns)
        est.game.modifiers).map (fun m => m.id) := by
      rw [hids]
      exact List.mem_map_of_mem _ hmmem
    rcases List.mem_map.mp this with ⟨x, hx, hxid⟩
    exact ⟨x, hx, by rw [hxid]; exact hmid⟩
  -- no modifier is due for processing, before or after the fold
  have hnoproc2 : ∀ m' ∈ moved.mods,
      ¬ (0 < m'.inputs.length ∧ m'.processInterval ≤ now - m'.lastProcess) := by
    intro m' hm'
    have htr := applyArrival_fold_triples sqrtFn dt conns items0
      est.game.modifiers
    rw [← hmodsfold] at htr
    have : (m'.id, m'.lastProcess, m'.processInterval) ∈
        est.game.modifiers.map (fun m => (m.id, m.lastProcess, m.processInterval)) := by
      rw [← htr]
      exact List.mem_map_of_mem _ hm'
    rcases List.mem_map.mp this with ⟨m0, hm0, heq0⟩
    have h2 : m0.lastProcess = m'.lastProcess := congrArg (fun t => t.2.1) heq0
    have h3 : m0.processInterval = m'.processInterval := congrArg (fun t => t.2.2) heq0
    intro ⟨_, helapsed⟩
    apply hnoproc m0 hm0
    rw [h2, h3]
    exact helapsed
  have hnp := processLoop_no_process uuid gen now conns moved.mods items2
    est.game.discoveredCombos spawned.2.2 hnoproc2
  refine ⟨?_, ?_, fun d i ms => pushInput_inputsOfFirst d i ms⟩
  · -- post modifiers are exactly the fold result
    have hpostm : (updateGame sqrtFn uuid gen est.game now dt).modifiers =
        moved.mods := by
      rw [hmods, hnp]
    show ∃ l, inputsOfFirst
      (updateGame sqrtFn uuid gen est.game now dt).modifiers destId =
      some l ∧ it.id ∈ l
    rw [hpostm]
    exact hfirst
  · -- the item survives in the collection
    have hkeep : moveItemKeep sqrtFn dt conns it = it := by
      unfold moveItemKeep
      rw [harr]
    have hinmoved : it ∈ moved.items := by
      rw [hmoveditems, ← hkeep]
      exact List.mem_map_of_mem _ (List.mem_append_left _ hit)
    have hnotsold : it.id ∉ moved.removed := by
      rw [hremoved]
      intro hmem
      rcases List.mem_map.mp hmem with ⟨x, hx, hxid⟩
      have hx0 := List.mem_of_mem_filter hx
      have hxs := (List.mem_filter.mp hx).2
      rcases List.mem_append.mp hx0 with h0 | h0
      · have : x = it := List.inj_on_of_nodup_map hnodup h0 hit hxid
        subst this
        unfold arrivesAtSell at hxs
        rw [harr] at hxs
        exact Bool.noConfusion hxs
      · obtain ⟨_, _, _, j, _, hj⟩ :=
          spawnLoop_items_mem uuid now conns est.game.spawners 0 x h0
        apply hfresh j it hit
        rw [← hj]
        exact hxid
    have hin2 : it ∈ items2 := by
      rw [hitems2_def]
      split
      · exact List.mem_filter.mpr ⟨hinmoved, by
          simpa using hnotsold⟩
      · exact hinmoved
    have hposti : (updateGame sqrtFn uuid gen est.game now dt).items =
        items2 := by
      rw [hitems, hnp]
    show it.id ∈
      ((updateGame sqrtFn uuid gen est.game now dt).items).map GameItem.id
    rw [hposti]
    exact List.mem_map_of_mem _ hin2

unseal Rat.add Rat.mul Rat.sub Rat.inv Nat.gcd in
/-- Witness for `arrival_appends_and_retains` at the concrete arrival
fixture: the item arrives at the modifier this tick, its id lands in the
pending-input list, and the item is still in the collection. -/
theorem arrival_appends_and_retains_witness :
    moveItemResult Rat.sqrt (1000 - arrivalEngine.lastFrameTime)
      (recomputeConnections arrivalEngine.game) (cexItem "i1") =
      .toMod "m1" ∧
    ((∃ l, inputsOfFirst (tick Rat.sqrt sampleUuid sampleGen arrivalEngine
        1000).game.modifiers "m1" = some l ∧ (cexItem "i1").id ∈ l) ∧
     (cexItem "i1").id ∈ (tick Rat.sqrt sampleUuid sampleGen arrivalEngine
        1000).game.items.map GameItem.id ∧
     (∀ d i ms, inputsOfFirst (pushInput d i ms) d =
       (inputsOfFirst ms d).map (fun l => if i ∈ l then l else l ++ [i]))) :=
  ⟨by decide,
   arrival_appends_and_retains Rat.sqrt sampleUuid sampleGen arrivalEngine
     1000 (cexItem "i1") "m1"
     (by decide) (by decide)
     (by
       intro j x hx hje
       have hx' : x = cexItem "i1" := by
         simpa [arrivalEngine, cexItem] using hx
       subst hx'
       have hmem : ('i' : Char) ∈ (sampleUuid j).data := by
         rw [hje]
         decide
       have hrep : ('i' : Char) ∈ List.replicate j 'a' := by
         simpa [sampleUuid] using hmem
       have := List.eq_of_mem_replicate hrep
       exact absurd this (by decide))
     (by decide) (by decide) (by decide) (by decide)⟩

/-! ## Run-level spawner lemmas (shared by the timing claims) -/

/-- Per-tick evolution of the spawner at index `i`: with the frame
guards and its firing condition it gets `lastSpawn := now`, otherwise it
is unchanged in every field. -/
theorem tick_spawner_get? (sqrtFn : ℚ → ℚ) (uuid : ℕ → String)
    (gen : List String → String → GPTResponse) (est : EngineState)
    (now : ℚ) (i : ℕ) (s : Spawner)
    (hs : est.game.spawners.get? i = some s) :
    (tick sqrtFn uuid gen est now).game.spawners.get? i =
      some (if (tickRuns est now &&
          spawnerFires now (recomputeConnections est.game) s) = true
        then { s with lastSpawn := now } else s) := by
  rw [tick_eq]
  by_cases hrun : tickRuns est now = true
  · rw [if_pos hrun]
    obtain ⟨_, _, hspawners, _, _, _⟩ :=
      updateGame_parts sqrtFn uuid gen est.game now (now - est.lastFrameTime)
        _ _ _ _ _ rfl rfl rfl rfl rfl
    show (updateGame sqrtFn uuid gen est.game now
      (now - est.lastFrameTime)).spawners.get? i = _
    rw [hspawners, spawnLoop_spawners, List.get?_map, hs]
    simp [hrun]
  · rw [if_neg hrun]
    have hfalse : tickRuns est now = false := Bool.of_not_eq_true hrun
    split
    · show est.game.spawners.get? i = _
      rw [hs, hfalse]
      simp
    · rw [hs, hfalse]
      simp

/-- Per-tick preservation of every connection's source fields. -/
theorem tick_connection_keys (sqrtFn : ℚ → ℚ) (uuid : ℕ → String)
    (gen : List String → String → GPTResponse) (est : EngineState)
    (now : ℚ) :
    (tick sqrtFn uuid gen est now).game.connections.map
        (fun c => (c.fromId, c.fromType)) =
      est.game.connections.map (fun c => (c.fromId, c.fromType)) := by
  rw [tick_eq]
  by_cases hrun : tickRuns est now = true
  · rw [if_pos hrun]
    obtain ⟨_, _, _, _, hconnsv, _⟩ :=
      updateGame_parts sqrtFn uuid gen est.game now (now - est.lastFrameTime)
        _ _ _ _ _ rfl rfl rfl rfl rfl
    show (updateGame sqrtFn uuid gen est.game now
      (now - est.lastFrameTime)).connections.map
        (fun c => (c.fromId, c.fromType)) = _
    rw [hconnsv]
    simp [recomputeConnections, List.map_map, Function.comp]
  · rw [if_neg hrun]
    split
    · rfl
    · rfl

/-- Recomputing connection points does not change which connections
match a given source id and kind. -/
theorem recomputeConnections_find?_isSome (g : GameState) (x : String) :
    ((recomputeConnections g).find?
        (fun c => c.fromId == x && c.fromType == FromType.spawner)).isSome =
      ((g.connections.find?
        (fun c => c.fromId == x && c.fromType == FromType.spawner))).isSome := by
  unfold recomputeConnections
  rw [List.find?_map]
  have hp : ((fun c => c.fromId == x && c.fromType == FromType.spawner) ∘
      (fun c => { c with points :=
        calculateConnectionPoints c g.spawners g.modifiers })) =
      (fun c : Connection => c.fromId == x &&
        c.fromType == FromType.spawner) := by
    funext c
    rfl
  rw [hp]
  cases g.connections.find? (fun c => c.fromId == x &&
    c.fromType == FromType.spawner) <;> rfl

/-- `runTicks` splits over list append, shifting the per-tick id-oracle
index by the length of the first part. -/
theorem runTicks_append (sqrtFn : ℚ → ℚ) (uuid : ℕ → ℕ → String)
    (gen : List String → String → GPTResponse) :
    ∀ (l1 l2 : List ℚ) (est : EngineState) (n : ℕ),
    runTicks sqrtFn uuid gen est (l1 ++ l2) n =
      runTicks sqrtFn uuid gen (runTicks sqrtFn uuid gen est l1 n) l2
        (n + l1.length) := by
  intro l1
  induction l1 with
  | nil => intro l2 est n; simp [runTicks]
  | cons t rest ih =>
    intro l2 est n
    rw [List.cons_append, runTicks, runTicks, ih, List.length_cons]
    congr 1
    omega

/-- One more tick extends the run prefix. -/
theorem runPrefix_succ (sqrtFn : ℚ → ℚ) (uuid : ℕ → ℕ → String)
    (gen : List String → String → GPTResponse) (est : EngineState)
    (ts : List ℚ) (n : ℕ) (hn : n < ts.length) :
    runPrefix sqrtFn uuid gen est ts (n + 1) =
      tick sqrtFn (uuid n) gen (runPrefix sqrtFn uuid gen est ts n)
        (ts.getD n 0) := by
  unfold runPrefix
  have hgetD : ts.getD n 0 = ts[n] := by
    simp [List.getD_eq_getElem?_getD, List.getElem?_eq_getElem hn]
  rw [List.take_succ, List.getElem?_eq_getElem hn]
  show runTicks sqrtFn uuid gen est (ts.take n ++ [ts[n]]) 0 = _
  rw [runTicks_append]
  have hlen : (ts.take n).length = n := by
    rw [List.length_take]
    omega
  rw [hlen, hgetD]
  simp [runTicks]

/-- Along a run, the spawner at index `i` keeps its identity, item type
and interval. -/
theorem run_spawner_invariant (sqrtFn : ℚ → ℚ) (uuid : ℕ → ℕ → String)
    (gen : List String → String → GPTResponse) (est : EngineState)
    (ts : List ℚ) (i : ℕ) (s : Spawner)
    (hs : est.game.spawners.get? i = some s) :
    ∀ n, n ≤ ts.length →
    ∃ sn, (runPrefix sqrtFn uuid gen est ts n).game.spawners.get? i =
        some sn ∧
      sn.id = s.id ∧ sn.itemType = s.itemType ∧
      sn.spawnInterval = s.spawnInterval := by
  intro n
  induction n with
  | zero =>
    intro _
    refine ⟨s, ?_, rfl, rfl, rfl⟩
    rw [runPrefix, List.take_zero]
    exact hs
  | succ n ih =>
    intro hn1
    obtain ⟨sn, hsn, h1, h2, h3⟩ := ih (by omega)
    rw [runPrefix_succ sqrtFn uuid gen est ts n (by omega)]
    rw [tick_spawner_get? sqrtFn (uuid n) gen _ _ i sn hsn]
    refine ⟨_, rfl, ?_, ?_, ?_⟩ <;> split <;> simp [h1, h2, h3]

/-- Along a run, every connection keeps its source id and kind. -/
theorem run_connection_keys (sqrtFn : ℚ → ℚ) (uuid : ℕ → ℕ → String)
    (gen : List String → String → GPTResponse) (est : EngineState)
    (ts : List ℚ) :
    ∀ n, n ≤ ts.length →
    (runPrefix sqrtFn uuid gen est ts n).game.connections.map
        (fun c => (c.fromId, c.fromType)) =
      est.game.connections.map (fun c => (c.fromId, c.fromType)) := by
  intro n
  induction n with
  | zero => intro _; simp [runPrefix, runTicks]
  | succ n ih =>
    intro h
    rw [runPrefix_succ sqrtFn uuid gen est ts n (by omega),
      tick_connection_keys]
    exact ih (by omega)

/-- After the spawner at index `i` fires at step `n`, its `lastSpawn` is
at least the `n`-th tick time for the rest of the run (tick times being
non-decreasing). -/
theorem run_lastSpawn_lb (sqrtFn : ℚ → ℚ) (uuid : ℕ → ℕ → String)
    (gen : List String → String → GPTResponse) (est : EngineState)
    (ts : List ℚ) (i : ℕ) (s : Spawner)
    (hs : est.game.spawners.get? i = some s)
    (hmono : ∀ a b : ℕ, a ≤ b → b < ts.length → ts.getD a 0 ≤ ts.getD b 0)
    (n : ℕ) (hn : n < ts.length)
    (hfire : firesAt sqrtFn uuid gen est ts n i = true) :
    ∀ k, n < k → k ≤ ts.length →
    ∃ sk, (runPrefix sqrtFn uuid gen est ts k).game.spawners.get? i =
        some sk ∧ ts.getD n 0 ≤ sk.lastSpawn := by
  intro k
  induction k with
  | zero => intro h _; omega
  | succ k ih =>
    intro hnk hk1
    rcases Nat.lt_or_ge n k with hlt | hge
    · obtain ⟨sk, hsk, hbound⟩ := ih hlt (by omega)
      rw [runPrefix_succ sqrtFn uuid gen est ts k (by omega)]
      rw [tick_spawner_get? sqrtFn (uuid k) gen _ _ i sk hsk]
      refine ⟨_, rfl, ?_⟩
      split
      · show ts.getD n 0 ≤ ts.getD k 0
        exact hmono n k (by omega) (by omega)
      · exact hbound
    · have hnk' : n = k := by omega
      subst hnk'
      obtain ⟨sn, hsn, _, _, _⟩ :=
        run_spawner_invariant sqrtFn uuid gen est ts i s hs n (by omega)
      have hfire' := hfire
      simp only [firesAt, tickFires, hsn, Bool.and_eq_true] at hfire'
      rw [runPrefix_succ sqrtFn uuid gen est ts n (by omega)]
      rw [tick_spawner_get? sqrtFn (uuid n) gen _ _ i sn hsn]
      rw [if_pos (by rw [Bool.and_eq_true]; exact ⟨hfire'.1, hfire'.2⟩)]
      exact ⟨_, rfl, le_refl _⟩

/-- C4: in any run of `gameLoop` invocations at non-decreasing times, a
spawner with `spawnInterval = 3000` fires at most once in any 3000 ms
window — any two firing steps are at least 3000 ms apart (emission
requires `now − lastSpawn ≥ interval` and firing resets `lastSpawn` to
`now`); each firing spawner pushes exactly one item per tick (the spawn
phase pushes as many items as there are firing spawners); and a spawner
with no outbound connection never fires — it emits zero items, silently
(the spawn phase is a total function; the spawner is simply skipped). -/
theorem spawn_rate_limited (sqrtFn : ℚ → ℚ) (uuid : ℕ → ℕ → String)
    (gen : List String → String → GPTResponse) (est : EngineState)
    (ts : List ℚ) (i : ℕ) (s : Spawner)
    (hmono : ∀ a b : ℕ, a ≤ b → b < ts.length → ts.getD a 0 ≤ ts.getD b 0)
    (hs : est.game.spawners.get? i = some s)
    (hint : s.spawnInterval = 3000) :
    (∀ n m, n < m → m < ts.length →
      firesAt sqrtFn uuid gen est ts n i = true →
      firesAt sqrtFn uuid gen est ts m i = true →
      ts.getD n 0 + 3000 ≤ ts.getD m 0) ∧
    (∀ w n m, n < m → m < ts.length →
      firesAt sqrtFn uuid gen est ts n i = true →
      firesAt sqrtFn uuid gen est ts m i = true →
      w ≤ ts.getD n 0 → ts.getD n 0 < w + 3000 →
      ¬ (w ≤ ts.getD m 0 ∧ ts.getD m 0 < w + 3000)) ∧
    (∀ (uuid' : ℕ → String) (now' : ℚ),
      (spawnLoop uuid' now' (recomputeConnections est.game)
        est.game.spawners 0).2.1.length =
      est.game.spawners.countP
        (fun x => spawnerFires now' (recomputeConnections est.game) x)) ∧
    ((∀ c ∈ est.game.connections,
        ¬ (c.fromId = s.id ∧ c.fromType = FromType.spawner)) →
      ∀ n, n < ts.length → firesAt sqrtFn uuid gen est ts n i = false) := by
  have hsep : ∀ n m, n < m → m < ts.length →
      firesAt sqrtFn uuid gen est ts n i = true →
      firesAt sqrtFn uuid gen est ts m i = true →
      ts.getD n 0 + 3000 ≤ ts.getD m 0 := by
    intro n m hnm hm hfn hfm
    obtain ⟨sm, hsmI, _, _, hintm⟩ :=
      run_spawner_invariant sqrtFn uuid gen est ts i s hs m (by omega)
    obtain ⟨sm2, hsm2, hlb⟩ := run_lastSpawn_lb sqrtFn uuid gen est ts i s hs
      hmono n (by omega) hfn m hnm (by omega)
    rw [hsmI] at hsm2
    have heq := Option.some.inj hsm2
    subst heq
    have hfm' := hfm
    simp only [firesAt, tickFires, hsmI, Bool.and_eq_true] at hfm'
    have hfires := hfm'.2
    simp only [spawnerFires, Bool.and_eq_true, decide_eq_true_eq] at hfires
    have hle : sm.spawnInterval ≤ ts.getD m 0 - sm.lastSpawn := hfires.1.1
    have h3000 : sm.spawnInterval = 3000 := by rw [hintm, hint]
    rw [h3000] at hle
    linarith
  refine ⟨hsep, ?_, ?_, ?_⟩
  · intro w n m hnm hm hfn hfm hw1 hw2 ⟨hw3, hw4⟩
    have := hsep n m hnm hm hfn hfm
    linarith
  · intro uuid' now'
    exact spawnLoop_items_count uuid' now' (recomputeConnections est.game)
      est.game.spawners 0
  · intro hnoconn n hn
    obtain ⟨sn, hsn, hid, _, _⟩ :=
      run_spawner_invariant sqrtFn uuid gen est ts i s hs n (by omega)
    by_contra hfire
    rw [Bool.not_eq_false] at hfire
    simp only [firesAt, tickFires, hsn, Bool.and_eq_true] at hfire
    have hfires := hfire.2
    simp only [spawnerFires, Bool.and_eq_true, decide_eq_true_eq] at hfires
    have hfind := hfires.2
    -- the recomputed connection list can contain no outbound connection
    have hnone : ((runPrefix sqrtFn uuid gen est ts n).game.connections.find?
        (fun c => c.fromId == sn.id && c.fromType == FromType.spawner)) =
        none := by
      rw [List.find?_eq_none]
      intro c hc
      have hkey : (c.fromId, c.fromType) ∈
          est.game.connections.map (fun c => (c.fromId, c.fromType)) := by
        rw [← run_connection_keys sqrtFn uuid gen est ts n (by omega)]
        exact List.mem_map_of_mem _ hc
      rcases List.mem_map.mp hkey with ⟨c0, hc0, hc0k⟩
      have h1 : c0.fromId = c.fromId := congrArg Prod.fst hc0k
      have h2 : c0.fromType = c.fromType := congrArg Prod.snd hc0k
      intro hpred
      rw [Bool.and_eq_true, beq_iff_eq, beq_iff_eq] at hpred
      exact hnoconn c0 hc0 ⟨by rw [h1, hpred.1, hid], by rw [h2, hpred.2]⟩
    have hnone2 : ((recomputeConnections
        (runPrefix sqrtFn uuid gen est ts n).game).find?
        (fun c => c.fromId == sn.id && c.fromType == FromType.spawner)) =
        none := by
      rw [← Option.not_isSome_iff_eq_none]
      rw [recomputeConnections_find?_isSome]
      rw [hnone]
      simp
    rw [hnone2] at hfind
    exact Bool.noConfusion hfind

/-- Witness for `spawn_rate_limited`: the concrete one-spawner engine
over the two-tick run at times 100 and 5000. -/
theorem spawn_rate_limited_witness :
    (∀ n m, n < m → m < ([100, 5000] : List ℚ).length →
      firesAt Rat.sqrt (fun _ => sampleUuid) sampleGen spawnerEngine
        [100, 5000] n 0 = true →
      firesAt Rat.sqrt (fun _ => sampleUuid) sampleGen spawnerEngine
        [100, 5000] m 0 = true →
      ([100, 5000] : List ℚ).getD n 0 + 3000 ≤
        ([100, 5000] : List ℚ).getD m 0) ∧
    (∀ w n m, n < m → m < ([100, 5000] : List ℚ).length →
      firesAt Rat.sqrt (fun _ => sampleUuid) sampleGen spawnerEngine
        [100, 5000] n 0 = true →
      firesAt Rat.sqrt (fun _ => sampleUuid) sampleGen spawnerEngine
        [100, 5000] m 0 = true →
      w ≤ ([100, 5000] : List ℚ).getD n 0 →
      ([100, 5000] : List ℚ).getD n 0 < w + 3000 →
      ¬ (w ≤ ([100, 5000] : List ℚ).getD m 0 ∧
         ([100, 5000] : List ℚ).getD m 0 < w + 3000)) ∧
    (∀ (uuid' : ℕ → String) (now' : ℚ),
      (spawnLoop uuid' now' (recomputeConnections spawnerEngine.game)
        spawnerEngine.game.spawners 0).2.1.length =
      spawnerEngine.game.spawners.countP
        (fun x => spawnerFires now'
          (recomputeConnections spawnerEngine.game) x)) ∧
    ((∀ c ∈ spawnerEngine.game.connections,
        ¬ (c.fromId = lonelySpawner.id ∧ c.fromType = FromType.spawner)) →
      ∀ n, n < ([100, 5000] : List ℚ).length →
      firesAt Rat.sqrt (fun _ => sampleUuid) sampleGen spawnerEngine
        [100, 5000] n 0 = false) :=
  spawn_rate_limited Rat.sqrt (fun _ => sampleUuid) sampleGen spawnerEngine
    [100, 5000] 0 lonelySpawner
    (by
      intro a b hab hb
      simp only [List.length_cons, List.length_nil] at hb
      interval_cases b <;> interval_cases a <;> norm_num [List.getD])
    rfl rfl

/-! ## Spawner skip behaviour (claim C10) -/

/-- C10: a spawner's `lastSpawn` is updated exactly on a tick where an
item is actually created — on any tick where emission is skipped (frame
guard, interval not elapsed, unknown item type, or no outbound
connection with points) every field of the spawner is unchanged; and a
spawner whose interval elapsed while it had no outbound connection fires
on a later tick as soon as an outbound connection with computed points
is present (its unchanged `lastSpawn` keeps the interval condition
satisfied). -/
theorem spawner_skip_unchanged (sqrtFn : ℚ → ℚ) (uuid : ℕ → String)
    (gen : List String → String → GPTResponse) (est : EngineState)
    (now : ℚ) (i : ℕ) (s : Spawner)
    (hs : est.game.spawners.get? i = some s) :
    ((tick sqrtFn uuid gen est now).game.spawners.get? i =
      some (if (tickRuns est now &&
          spawnerFires now (recomputeConnections est.game) s) = true
        then { s with lastSpawn := now } else s)) ∧
    (∀ (conns1 conns2 : List Connection) (t1 t2 : ℚ),
      t1 ≤ t2 →
      s.spawnInterval ≤ t1 - s.lastSpawn →
      (∀ c ∈ conns1, ¬ (c.fromId = s.id ∧ c.fromType = FromType.spawner)) →
      (∃ c, conns2.find? (fun c => c.fromId == s.id &&
          c.fromType == FromType.spawner) = some c ∧ 0 < c.points.length) →
      (ELEMENTAL_INGREDIENTS.find?
        (fun ing => ing.1 == s.itemType)).isSome = true →
      spawnerFires t1 conns1 s = false ∧ spawnerFires t2 conns2 s = true) := by
  refine ⟨tick_spawner_get? sqrtFn uuid gen est now i s hs, ?_⟩
  intro conns1 conns2 t1 t2 ht12 helapsed hnoconn hconn hing
  constructor
  · have hnone : conns1.find? (fun c => c.fromId == s.id &&
        c.fromType == FromType.spawner) = none := by
      rw [List.find?_eq_none]
      intro c hc hpred
      rw [Bool.and_eq_true, beq_iff_eq, beq_iff_eq] at hpred
      exact hnoconn c hc hpred
    simp [spawnerFires, hnone]
  · obtain ⟨c, hfind, hlen⟩ := hconn
    have helapsed2 : s.spawnInterval ≤ t2 - s.lastSpawn := by linarith
    simp [spawnerFires, hfind, helapsed2, hing, hlen]

unseal Rat.add Rat.mul Rat.sub Rat.inv Nat.gcd in
/-- Witness for `spawner_skip_unchanged`: the concrete one-spawner
engine; at time 100 the interval has elapsed but there is no outbound
connection, so the spawner cannot fire there, while at time 5000 with a
connected outbound it fires. -/
theorem spawner_skip_unchanged_witness :
    ((tick Rat.sqrt sampleUuid sampleGen spawnerEngine 100).game.spawners.get?
        0 = some (if (tickRuns spawnerEngine 100 &&
          spawnerFires 100 (recomputeConnections spawnerEngine.game)
            lonelySpawner) = true
        then { lonelySpawner with lastSpawn := 100 } else lonelySpawner)) ∧
    ((5000 : ℚ) ≤ 6000 ∧
      lonelySpawner.spawnInterval ≤ 5000 - lonelySpawner.lastSpawn) ∧
    (spawnerFires 5000 [] lonelySpawner = false ∧
      spawnerFires 6000 [outConnection] lonelySpawner = true) :=
  ⟨(spawner_skip_unchanged Rat.sqrt sampleUuid sampleGen spawnerEngine 100 0
      lonelySpawner rfl).1,
   ⟨by norm_num, by norm_num [lonelySpawner]⟩,
   (spawner_skip_unchanged Rat.sqrt sampleUuid sampleGen spawnerEngine 100 0
      lonelySpawner rfl).2 [] [outConnection] 5000 6000
     (by norm_num)
     (by norm_num [lonelySpawner])
     (by simp)
     ⟨outConnection, by decide, by decide⟩
     (by decide)⟩

end Factory